import Mathlib

/-!
# The python-for-android native launcher (`start.c`)

A shallow embedding of
`pythonforandroid/bootstraps/common/build/jni/application/src/start.c`.

Conventions of the embedding.

* A C `char` is a `Char`; `NUL` is the terminator.  A C string handed to the
  program (an environment value, a directory entry name) is the `List Char` of
  its characters, without the terminator, so `strlen` of it is `List.length`.
* A `char buf[n]` is a `List Char` of length `n`.  Locals are not initialised
  in C, so a buffer starts from arbitrary contents, supplied by the caller of
  the model as a function `junk : Nat → Char` (see `alloc`).
* Every primitive that stores into, or scans, a buffer returns an `Option`:
  `none` means the access left the buffer (undefined behaviour in C).
* `size_t` arithmetic that can wrap is written with `size_sub`.
* The operating system, the dynamic loader and the embedded interpreter are
  parameters: records of their answers (`Host`, `Loader`) and explicit
  environment (`Env`) and file-system (`FS`) states.  Library functions
  (`strcpy`, `snprintf`, `setenv`, ...) follow their C and POSIX descriptions.
* `symlink` on a free path succeeds or fails as a fixed function of its two
  arguments (`Loader.symlink_allowed`): the device does not change between two
  scans except through the scans themselves.
-/

set_option maxRecDepth 16384

namespace Start

/-! ## C library primitives -/

/-- The string terminator. -/
def NUL : Char := Char.ofNat 0

/-- Line feed. -/
def LF : Char := Char.ofNat 10

/-- Carriage return. -/
def CR : Char := Char.ofNat 13

/-- One more than `SIZE_MAX` (64-bit `size_t`). -/
def SIZE_MOD : Nat := 18446744073709551616

/-- Subtraction on `size_t`: wraps around below zero. -/
def size_sub (a b : Nat) : Nat := (a + SIZE_MOD - b % SIZE_MOD) % SIZE_MOD

/-- A fresh local array `char buf[n]`: `n` bytes of whatever the stack held. -/
def alloc (junk : Nat → Char) (n : Nat) : List Char := (List.range n).map junk

/-- The characters of a buffer before its first `NUL`. -/
def cstr (b : List Char) : List Char := b.takeWhile (fun c => c != NUL)

/-- Reading a buffer as a C string; `none` when the buffer holds no `NUL`
(the read runs off its end). -/
def c_str (b : List Char) : Option (List Char) :=
  if NUL ∈ b then some (cstr b) else none

/-- The store `b[i] = c`; `none` when `i` is outside the buffer. -/
def poke (b : List Char) (i : Nat) (c : Char) : Option (List Char) :=
  if i < b.length then some (b.set i c) else none

/-- Library `strcpy(dst, src)`: stores the characters of `src` and a `NUL`;
`none` when these `strlen(src) + 1` bytes do not fit into `dst`. -/
def strcpy (dst src : List Char) : Option (List Char) :=
  if src.length < dst.length then some (src ++ NUL :: dst.drop (src.length + 1)) else none

/-- Library `strncpy(dst, src, n)`: stores exactly `n` bytes, the first
`min n (strlen src)` characters of `src` followed by `NUL` padding (no `NUL` at
all when `src` has `n` characters or more); `none` when `n` bytes do not fit. -/
def strncpy (dst src : List Char) (n : Nat) : Option (List Char) :=
  if n ≤ dst.length then
    some (src.take n ++ List.replicate (n - src.length) NUL ++ dst.drop n)
  else none

/-- Library `snprintf(dst, size, fmt, ...)`, where `text` is the expansion of
the format: stores at most `size - 1` characters of it and a `NUL`. -/
def snprintf (dst : List Char) (size : Nat) (text : List Char) : Option (List Char) :=
  if size = 0 then some dst
  else
    let k := min text.length (size - 1)
    if k < dst.length then some (text.take k ++ NUL :: dst.drop (k + 1)) else none

/-- Library `strrchr(s, c)` for `c ≠ NUL`: the tail of `s` that starts at the
last occurrence of `c`, or `none` (a null pointer). -/
def strrchr : List Char → Char → Option (List Char)
  | [], _ => none
  | x :: xs, c =>
    match strrchr xs c with
    | some t => some t
    | none => if x = c then some (x :: xs) else none

/-- Library `strcmp`: negative, zero or positive. -/
def strcmp : List Char → List Char → Int
  | [], [] => 0
  | [], _ :: _ => -1
  | _ :: _, [] => 1
  | a :: as, b :: bs =>
    if a = b then strcmp as bs else if a.toNat < b.toNat then -1 else 1

/-- Library `strncmp`: `strcmp` on the first `n` characters. -/
def strncmp (a b : List Char) (n : Nat) : Int := strcmp (a.take n) (b.take n)

/-- Library `strstr(hay, needle)` as an offset into `hay`, or `none`. -/
def strstr : List Char → List Char → Option Nat
  | [], needle => if needle = [] then some 0 else none
  | h :: t, needle =>
    if needle.isPrefixOf (h :: t) then some 0 else (strstr t needle).map (fun i => i + 1)

/-! ## What the launcher does to the outside world -/

/-- The script fragments `main` hands to `PyRun_SimpleString`. -/
inductive Fragment where
  /-- Lines 361-365: `import androidembed` and a test log line. -/
  | test_redirection
  /-- Line 370: `import io, sys, posix`. -/
  | import_io_sys_posix
  /-- Lines 379-380: `import sys, os` and the `os.path` names. -/
  | import_sys_os
  /-- Line 386: `sys.executable = '<interpreter>'`. -/
  | set_executable
  /-- Line 387: `sys.argv = ['<interpreter>']`. -/
  | set_argv
  /-- Line 389: `sys.path.append('<bundle>/site-packages')`. -/
  | add_site_packages_dir
  /-- Line 391: `sys.path = ['.'] + sys.path`. -/
  | path_dot
  /-- Line 392: `os.environ['PYTHONPATH'] = ':'.join(sys.path)`. -/
  | pythonpath
  /-- Lines 395-410: the `LogFile` class replacing `sys.stdout` and `sys.stderr`. -/
  | logfile
  /-- Line 413: `import site; print site.getsitepackages()`. -/
  | print_site
  deriving DecidableEq, Repr

/-- Observable actions of `main`, in program order. -/
inductive Event where
  /-- The call `LOGP(msg)`. -/
  | logp (msg : String)
  /-- The call `file_exists(path)`, that is `access(path, F_OK)`. -/
  | access (path : List Char)
  /-- The call `Py_InitializeFromConfig(&config)`. -/
  | py_init_from_config
  /-- The call `Py_Initialize()`. -/
  | py_init_legacy
  /-- The call `PyEval_InitThreads()`. -/
  | init_threads
  /-- The call `initandroidembed()`. -/
  | init_androidembed
  /-- The call `PyRun_SimpleString(code)`. -/
  | run_simple_string (code : Fragment)
  /-- The call `fopen(path, "r")`. -/
  | fopen (path : List Char)
  /-- The call `PyRun_SimpleFile(fd, path)`. -/
  | run_simple_file (path : List Char)
  /-- The call `fclose(fd)`. -/
  | fclose
  /-- The call `PyErr_Print()`. -/
  | err_print
  /-- The call `PyFile_WriteString("\n", f)` on `sys.stdout`. -/
  | write_newline
  /-- The call `Py_Finalize()` or `Py_FinalizeEx()`. -/
  | finalize
  deriving DecidableEq, Repr

/-! ## Entrypoint resolution: `main`, lines 416-455 -/

/-- The macro `ENTRYPOINT_MAXLEN`. -/
def ENTRYPOINT_MAXLEN : Nat := 128

/-- The literal ".pyc". -/
def EXT_PYC : List Char := ['.', 'p', 'y', 'c']

/-- The literal ".py". -/
def EXT_PY : List Char := ['.', 'p', 'y']

/-- The state of `main` when the resolution block is left. -/
structure Resolution where
  /-- The array `entrypoint`. -/
  entrypoint : List Char
  /-- The log lines and `file_exists` calls of the block, in order. -/
  events : List Event
  /-- The value `main` returned inside the block, `none` when control
  reaches `fopen`. -/
  ret : Option Int
  deriving DecidableEq, Repr

/-- Lines 416-455 of `main`.  `file_exists` answers `access(path, F_OK) == 0`,
`env_entrypoint` is the value of `ANDROID_ENTRYPOINT`, `entrypoint` the (not
initialised) array `char entrypoint[ENTRYPOINT_MAXLEN]`. -/
def resolve_entrypoint (file_exists : List Char → Bool)
    (env_entrypoint entrypoint : List Char) : Option Resolution :=
  match strrchr env_entrypoint '.' with
  | none =>
    some ⟨entrypoint, [.logp "Invalid entrypoint, abort."], some (-1)⟩
  | some dot =>
    if env_entrypoint.length > ENTRYPOINT_MAXLEN - 2 then
      some ⟨entrypoint,
        [.logp "Entrypoint path is too long, try increasing ENTRYPOINT_MAXLEN."], some (-1)⟩
    else if strcmp dot EXT_PYC = 0 then
      if !file_exists env_entrypoint then do
        -- fallback on .py
        let e1 ← strcpy entrypoint env_entrypoint
        let e2 ← poke e1 (size_sub env_entrypoint.length 1) NUL
        let s ← c_str e2
        if !file_exists s then
          some ⟨e2, [.access env_entrypoint, .logp (String.mk s), .access s,
            .logp "Entrypoint not found (.pyc, fallback on .py), abort"], some (-1)⟩
        else
          some ⟨e2, [.access env_entrypoint, .logp (String.mk s), .access s], none⟩
      else do
        let e1 ← strcpy entrypoint env_entrypoint
        some ⟨e1, [.access env_entrypoint], none⟩
    else if strcmp dot EXT_PY = 0 then do
      -- if .py is passed, check the pyc version first
      let e1 ← strcpy entrypoint env_entrypoint
      let e2 ← poke e1 (env_entrypoint.length + 1) NUL
      let e3 ← poke e2 env_entrypoint.length 'c'
      let s ← c_str e3
      if !file_exists s then
        -- fallback on pure python version
        if !file_exists env_entrypoint then
          some ⟨e3, [.access s, .access env_entrypoint,
            .logp "Entrypoint not found (.py), abort."], some (-1)⟩
        else do
          let e4 ← strcpy e3 env_entrypoint
          some ⟨e4, [.access s, .access env_entrypoint], none⟩
      else
        some ⟨e3, [.access s], none⟩
    else
      some ⟨entrypoint,
        [.logp "Entrypoint have an invalid extension (must be .py or .pyc), abort."],
        some (-1)⟩


/-! ## Runtime start, script run and shutdown: `main`, lines 336-490 -/

/-- The macro `P4A_MIN_VER`. -/
def P4A_MIN_VER : Nat := 11

/-- What the build, the operating system and the embedded interpreter answer
during one launch. -/
structure Host where
  /-- The macro `PY_MAJOR_VERSION`. -/
  py_major : Nat
  /-- The macro `PY_MINOR_VERSION`. -/
  py_minor : Nat
  /-- The answer of `PyStatus_Exception(status)` after `Py_InitializeFromConfig`. -/
  init_exception : Bool
  /-- The field `status.err_msg`. -/
  err_msg : String
  /-- The answer of `dir_exists(python_bundle_dir)`. -/
  bundle_dir_exists : Bool
  /-- The answer of `file_exists(path)`, that is `access(path, F_OK) == 0`. -/
  file_exists : List Char → Bool
  /-- Whether `fopen(path, "r")` returns a stream. -/
  fopen_ok : List Char → Bool
  /-- The value of `PyRun_SimpleFile(fd, path)`. -/
  run_simple_file : List Char → Int
  /-- Whether `PyErr_Occurred()` is non-null after the run. -/
  err_occurred : Bool
  /-- The value of `Py_FinalizeEx()`. -/
  finalize_ex : Int

/-- Lines 336-414 of `main`: interpreter initialisation and the bootstrap
fragments, as the sequence of calls made. -/
def main_init (h : Host) : List Event :=
  (if h.py_major ≥ 3 ∧ h.py_minor ≥ P4A_MIN_VER then
      [Event.py_init_from_config] ++
        (if h.init_exception then
          [Event.logp "Python initialization failed:", Event.logp h.err_msg]
        else [])
    else
      [Event.py_init_legacy, Event.logp "Python initialized using legacy Py_Initialize()."])
  ++ [Event.logp "Initialized python"]
  ++ (if h.py_major < 3 ∨ (h.py_major = 3 ∧ h.py_minor < 9) then
        [Event.logp "Initializing threads (required for Python < 3.9)", Event.init_threads]
      else [])
  ++ (if h.py_major < 3 then [Event.init_androidembed] else [])
  ++ [Event.run_simple_string .test_redirection, Event.run_simple_string .import_io_sys_posix]
  ++ (if h.bundle_dir_exists then
        [Event.run_simple_string .import_sys_os, Event.run_simple_string .set_executable,
         Event.run_simple_string .set_argv, Event.run_simple_string .add_site_packages_dir,
         Event.run_simple_string .path_dot, Event.run_simple_string .pythonpath]
      else [])
  ++ [Event.run_simple_string .logfile]
  ++ (if h.py_major < 3 then [Event.run_simple_string .print_site] else [])

/-- Lines 458-489 of `main`: open and run the file named by `entrypoint`, then
shut the interpreter down.  The result is the calls made and the value `main`
returns or passes to `exit`. -/
def main_run (h : Host) (entrypoint : List Char) : Option (List Event × Int) := do
  let path ← c_str entrypoint
  if !h.fopen_ok path then
    some ([Event.fopen path, Event.logp "Open the entrypoint failed",
      Event.logp (String.mk path)], -1)
  else
    let ret := h.run_simple_file path
    let ev := [Event.fopen path, Event.run_simple_file path, Event.fclose]
    let (ev, ret) :=
      if h.err_occurred then (ev ++ [Event.err_print, Event.write_newline], (1 : Int))
      else (ev, ret)
    let ev := ev ++ [Event.logp "Python for android ended."]
    let ev :=
      if h.py_major < 3 then
        ev ++ [Event.finalize,
          Event.logp "Unexpectedly reached Py_FinalizeEx(), but was successful."]
      else if h.finalize_ex ≠ 0 then
        ev ++ [Event.finalize,
          Event.logp "Unexpectedly reached Py_FinalizeEx(), and got error!"]
      else ev ++ [Event.finalize]
    some (ev, ret)

/-- Lines 336-490 of `main`: initialisation, bootstrap fragments, entrypoint
resolution, script run and shutdown.  `env_entrypoint` is the value of
`ANDROID_ENTRYPOINT` and `junk` the prior contents of the stack where
`char entrypoint[ENTRYPOINT_MAXLEN]` lives.  The result is the calls made and
the value `main` returns or passes to `exit`; `none` is undefined behaviour. -/
def main (h : Host) (junk : Nat → Char) (env_entrypoint : List Char) :
    Option (List Event × Int) := do
  let r ← resolve_entrypoint h.file_exists env_entrypoint (alloc junk ENTRYPOINT_MAXLEN)
  match r.ret with
  | some code => some (main_init h ++ r.events, code)
  | none =>
    let (ev, code) ← main_run h r.entrypoint
    some (main_init h ++ r.events ++ ev, code)

/-! ## Path utilities -/

/-- The literal "lib". -/
def LIB : List Char := ['l', 'i', 'b']

/-- The literal "bin.so". -/
def BIN_SO : List Char := ['b', 'i', 'n', '.', 's', 'o']

/-- The function `get_exe_name(filename, out, size)`, lines 90-112: strip the
"lib" prefix and the "bin.so" suffix.  The result is the array `out`
afterwards. -/
def get_exe_name (filename out : List Char) (size : Nat) : Option (List Char) :=
  let len := filename.length
  if len < 7 then do
    -- too short to be valid
    let out ← strncpy out filename (size_sub size 1)
    poke out (size_sub size 1) NUL
  else
    let start := if strncmp filename LIB 3 = 0 then filename.drop 3 else filename
    let start_len := start.length
    if start_len > 6 then do
      -- remove "bin.so"
      let copy_len := start_len - 6
      let copy_len := if copy_len ≥ size then size_sub size 1 else copy_len
      let out ← strncpy out start copy_len
      poke out copy_len NUL
    else do
      let out ← strncpy out start (size_sub size 1)
      poke out (size_sub size 1) NUL

/-- The reading of `get_exe_name` in the specification's testable property,
in its own words: one leading "lib" removed if present, and the trailing
"bin.so" (the last six characters) removed. -/
def spec_logical_executable_name (f : List Char) : List Char :=
  let g := if LIB <+: f then f.drop 3 else f
  g.take (g.length - 6)

/-! ## The process environment and `p4a_env_vars.txt`: `main`, lines 230-266 -/

/-- The process environment, as `getenv` sees it. -/
abbrev Env := List Char → Option (List Char)

/-- Library `setenv(name, value, 1)`.  POSIX: the call fails (`EINVAL`) and
changes nothing when `name` is empty or contains `=`; otherwise `name` is set to
`value`, replacing any earlier value.  `main` ignores the status. -/
def setenv (env : Env) (name value : List Char) : Env :=
  if name = [] ∨ '=' ∈ name then env
  else fun k => if k = name then some value else env k

/-- Library `strlen` on an array; `none` when the array holds no `NUL`. -/
def strlen (b : List Char) : Option Nat := (c_str b).map List.length

/-- The test `strlen(b) > 0 && b[strlen(b)-1] == c`. -/
def ends_with (b : List Char) (c : Char) : Option Bool := do
  let n ← strlen b
  some (decide (n > 0) && b[n - 1]? == some c)

/-- The store `b[strlen(b)-1] = 0`. -/
def chop (b : List Char) : Option (List Char) := do
  let n ← strlen b
  poke b (size_sub n 1) NUL

/-- The body of the `getline` loop, lines 235-261, for one `line` as `getline`
returns it (its line break included).  The result is the pair handed to
`setenv(env_name, env_value, 1)`, or `none` when no call is made.  The arrays
`env_name` and `env_value` are two fresh 256-byte locals. -/
def env_line (junk : Nat → Char) (line : List Char) :
    Option (Option (List Char × List Char)) :=
  if line.length > 0 then
    match strstr line ['='] with
    | none => some none
    | some eq_pos => do
      -- Extract name:
      let env_name ← strncpy (alloc junk 256) line 256
      let env_name ← poke env_name eq_pos NUL
      -- Extract value (with line break removed:
      let env_value ← strncpy (alloc (fun i => junk (i + 256)) 256) (line.drop (eq_pos + 1)) 256
      let env_value ←
        if (← ends_with env_value LF) then do
          let v ← chop env_value
          -- Also remove windows line breaks (\r\n)
          if (← ends_with v CR) then chop v else some v
        else some env_value
      -- Set value:
      let name ← c_str env_name
      let value ← c_str env_value
      some (some (name, value))
  else some none

/-- The `getline` loop, lines 234-262, over the lines of the file in order. -/
def env_lines (junk : Nat → Char) : List (List Char) → Env → Option Env
  | [], env => some env
  | line :: rest, env => do
    match (← env_line junk line) with
    | none => env_lines junk rest env
    | some (name, value) => env_lines junk rest (setenv env name value)

/-- Library `getline`, repeated to the end of a file with contents `text`: each
line ends after its line feed; a last line without one is returned as it is. -/
def getlines : List Char → List (List Char)
  | [] => []
  | c :: cs =>
    if c = LF then [LF] :: getlines cs
    else
      match getlines cs with
      | [] => [[c]]
      | l :: ls => (c :: l) :: ls

/-- Lines 230-266 of `main`: `text` is the contents of `p4a_env_vars.txt`, or
`none` when `fopen` fails (a warning is logged and nothing is set). -/
def load_env_vars (junk : Nat → Char) (text : Option (List Char)) (env : Env) : Option Env :=
  match text with
  | none => some env
  | some t => env_lines junk (getlines t) env

/-- Lines 248-256 on strings: the value left in `env_value` when the text
after the `=` is `rest` and fits the array.  A final line feed is dropped, and
then, only in that case, a final carriage return. -/
def strip_line_break (rest : List Char) : List Char :=
  if rest.getLast? = some LF then
    if rest.dropLast.getLast? = some CR then rest.dropLast.dropLast else rest.dropLast
  else rest

/-- Removal of one trailing `c`, if present. -/
def strip_trailing (c : Char) (v : List Char) : List Char :=
  if v.getLast? = some c then v.dropLast else v

/-- The value promised by the specification, in its own words: one trailing
line feed removed if present, and then one trailing carriage return removed if
present. -/
def spec_env_value (rest : List Char) : List Char :=
  strip_trailing CR (strip_trailing LF rest)

/-! ## Symlink provisioning: `setup_symlinks`, lines 114-195 -/

/-- An object in the file system, as `lstat` finds it. -/
inductive Node where
  /-- A directory. -/
  | dir
  /-- A symbolic link and its target. -/
  | symlink (target : List Char)
  /-- Anything else. -/
  | other
  deriving DecidableEq, Repr

/-- The file system: what `lstat(path)` finds, if anything. -/
abbrev FS := List Char → Option Node

/-- What the dynamic loader and the operating system answer during one call of
`setup_symlinks`. -/
structure Loader where
  /-- The field `info.dli_fname` when `dladdr` succeeds and the field is set. -/
  dli_fname : Option (List Char)
  /-- Whether `mkdir` can create a directory that does not exist yet. -/
  mkdir_allowed : Bool
  /-- The names `readdir` returns for the native library directory, in order;
  `none` when `opendir` fails. -/
  listing : Option (List (List Char))
  /-- Whether `symlink(src, dst)` succeeds when nothing exists at `dst`. -/
  symlink_allowed : List Char → List Char → Bool

/-- The literal "python". -/
def PYTHON : List Char := ['p', 'y', 't', 'h', 'o', 'n']

/-- The name "PATH". -/
def PATH : List Char := ['P', 'A', 'T', 'H']

/-- The name "LD_LIBRARY_PATH". -/
def LD_LIBRARY_PATH : List Char :=
  ['L', 'D', '_', 'L', 'I', 'B', 'R', 'A', 'R', 'Y', '_', 'P', 'A', 'T', 'H']

/-- The name "ANDROID_APP_PATH". -/
def ANDROID_APP_PATH : List Char :=
  ['A', 'N', 'D', 'R', 'O', 'I', 'D', '_', 'A', 'P', 'P', '_', 'P', 'A', 'T', 'H']

/-- The function `get_dirname(path, dir, size)`, lines 82-88.  The result is
the array `dir` afterwards. -/
def get_dirname (path dir : List Char) (size : Nat) : Option (List Char) := do
  let dir ← strncpy dir path (size_sub size 1)
  let dir ← poke dir (size_sub size 1) NUL
  let s ← c_str dir
  match strrchr s '/' with
  | some last_slash => poke dir (s.length - last_slash.length) NUL
  | none => poke dir 0 NUL

/-- The state of the directory scan. -/
structure Scan where
  /-- The file system. -/
  fs : FS
  /-- The local `interpreter`. -/
  interpreter : Option (List Char)
  /-- The `symlink(src, dst)` calls that succeeded so far, in order. -/
  created : List (List Char × List Char)

/-- Lines 157-163: the strings `exe_name`, `src` and `dst` for the directory
entry `name`, where `native_lib_dir` and `bin_dir` are the strings those
arrays hold. -/
def entry_paths (junk : Nat → Char) (native_lib_dir bin_dir name : List Char) :
    Option (List Char × List Char × List Char) := do
  let exe_name ← get_exe_name name (alloc junk 128) 128
  let exe ← c_str exe_name
  let src ← snprintf (alloc (fun i => junk (i + 128)) 512) 512 (native_lib_dir ++ '/' :: name)
  let dst ← snprintf (alloc (fun i => junk (i + 640)) 512) 512 (bin_dir ++ '/' :: exe)
  let src ← c_str src
  let dst ← c_str dst
  some (exe, src, dst)

/-- The body of the `readdir` loop, lines 151-176, for the entry `name`. -/
def scan_entry (junk : Nat → Char) (symlink_allowed : List Char → List Char → Bool)
    (native_lib_dir bin_dir : List Char) (st : Scan) (name : List Char) : Option Scan :=
  let len := name.length
  if len < 7 then some st
  else if strcmp (name.drop (len - 6)) BIN_SO ≠ 0 then some st  -- only bin.so at end
  else do
    let (exe, src, dst) ← entry_paths junk native_lib_dir bin_dir name
    -- interpreter found?
    let st := if strcmp exe PYTHON = 0 then { st with interpreter := some dst } else st
    if (st.fs dst).isSome then some st  -- already exists
    else if symlink_allowed src dst then
      some { st with
        fs := fun p => if p = dst then some (Node.symlink src) else st.fs p
        created := st.created ++ [(src, dst)] }
    else some st

/-- The `readdir` loop, lines 150-177, over the directory entries in order. -/
def scan (junk : Nat → Char) (symlink_allowed : List Char → List Char → Bool)
    (native_lib_dir bin_dir : List Char) : List (List Char) → Scan → Option Scan
  | [], st => some st
  | name :: rest, st => do
    let st ← scan_entry junk symlink_allowed native_lib_dir bin_dir st name
    scan junk symlink_allowed native_lib_dir bin_dir rest st

/-- Lines 181-189: append the bin directory to `PATH`.  `bin_dir` is the string
held by that array. -/
def extend_path (junk : Nat → Char) (env : Env) (bin_dir : List Char) : Option Env := do
  let new_path ←
    match env PATH with
    | some old_path =>
      if old_path.length > 0 then
        snprintf (alloc junk 1024) 1024 (old_path ++ ':' :: bin_dir)
      else snprintf (alloc junk 1024) 1024 bin_dir
    | none => snprintf (alloc junk 1024) 1024 bin_dir
  let new_path ← c_str new_path
  some (setenv env PATH new_path)

/-- What `setup_symlinks` leaves behind. -/
structure Provisioned where
  /-- The returned pointer `interpreter`. -/
  interpreter : Option (List Char)
  /-- The environment afterwards. -/
  env : Env
  /-- The file system afterwards. -/
  fs : FS
  /-- The `symlink` calls that succeeded, in order. -/
  created : List (List Char × List Char)
  /-- Whether the function got past `closedir`, that is, took none of the
  early returns. -/
  scanned : Bool

/-- The function `setup_symlinks`, lines 114-195.  A missing
`ANDROID_APP_PATH` reaches `snprintf` as a null `%s` argument, which is
undefined. -/
def setup_symlinks (junk : Nat → Char) (ld : Loader) (env : Env) (fs : FS) :
    Option Provisioned :=
  match ld.dli_fname with
  | none => some ⟨none, env, fs, [], false⟩
  | some dli_fname => do
    let lib_path ← strncpy (alloc junk 512) dli_fname (512 - 1)
    let lib_path ← poke lib_path (512 - 1) NUL
    let lib_path ← c_str lib_path
    let native_lib_dir ← get_dirname lib_path (alloc (fun i => junk (i + 512)) 512) 512
    if native_lib_dir.head? = some NUL then some ⟨none, env, fs, [], false⟩
    else do
      let native_lib_dir ← c_str native_lib_dir
      let files_dir_env ← env ANDROID_APP_PATH
      let bin_dir ← snprintf (alloc (fun i => junk (i + 1024)) 512) 512
        (files_dir_env ++ ['/', '.', 'b', 'i', 'n'])
      let bin_dir ← c_str bin_dir
      if (fs bin_dir).isNone && !ld.mkdir_allowed then some ⟨none, env, fs, [], false⟩
      else
        let fs : FS :=
          if (fs bin_dir).isNone then fun p => if p = bin_dir then some Node.dir else fs p
          else fs
        match ld.listing with
        | none => some ⟨none, env, fs, [], false⟩
        | some entries => do
          let st ← scan (fun i => junk (i + 1536)) ld.symlink_allowed native_lib_dir bin_dir
            entries ⟨fs, none, []⟩
          -- append bin_dir to PATH
          let env ← extend_path (fun i => junk (i + 2304)) env bin_dir
          -- set lib path
          let env := setenv env LD_LIBRARY_PATH native_lib_dir
          some ⟨st.interpreter, env, st.fs, st.created, true⟩

/-- The entry `name` has nothing left to do on the file system `fs`: it is
filtered out, or its target exists, or its `symlink` call is refused. -/
def settled (junk : Nat → Char) (allowed : List Char → List Char → Bool)
    (nld bin : List Char) (fs : FS) (name : List Char) : Prop :=
  name.length < 7 ∨ strcmp (name.drop (name.length - 6)) BIN_SO ≠ 0 ∨
    ∃ exe src dst, entry_paths junk nld bin name = some (exe, src, dst) ∧
      ((fs dst).isSome = true ∨ allowed src dst = false)

/-- The file system `fs2` keeps every object of `fs`. -/
def extends_fs (fs fs2 : FS) : Prop := ∀ p, (fs p).isSome = true → fs2 p = fs p

/-- An environment whose values are C strings. -/
def Env.wf (env : Env) : Prop := ∀ k v, env k = some v → NUL ∉ v

/-- A device seen by `setup_symlinks`: the launcher library is
`/data/lib/libmain.so`, the directory holds `entries`, and every `mkdir` and
`symlink` on a free path succeeds. -/
def sample_loader (entries : List (List Char)) : Loader where
  dli_fname := some "/data/lib/libmain.so".toList
  mkdir_allowed := true
  listing := some entries
  symlink_allowed := fun _ _ => true

/-- An environment with `ANDROID_APP_PATH=/data/app` and the given `PATH`. -/
def sample_env (path : Option (List Char)) : Env :=
  fun k => if k = ANDROID_APP_PATH then some "/data/app".toList
    else if k = PATH then path else none

/-! ## Sample machines, used to run the model on concrete inputs -/

/-- A Python 3.11 device on which exactly the files `present` exist and can be
opened, the bundle directory exists, the script runs cleanly and returns 0,
and interpreter initialisation reports an exception iff `init_exception`. -/
def sample_host (present : List (List Char)) (init_exception : Bool) : Host where
  py_major := 3
  py_minor := 11
  init_exception := init_exception
  err_msg := "init failed"
  bundle_dir_exists := true
  file_exists := fun p => decide (p ∈ present)
  fopen_ok := fun p => decide (p ∈ present)
  run_simple_file := fun _ => 0
  err_occurred := false
  finalize_ex := 0

/-- A stack full of the letter `x`. -/
def sample_junk : Nat → Char := fun _ => 'x'

/-! ## Facts about the C library primitives -/

theorem size_sub_of_le (a b : Nat) (hb : b ≤ a) (ha : a < SIZE_MOD) : size_sub a b = a - b := by
  unfold size_sub SIZE_MOD at *
  omega

theorem length_alloc (junk : Nat → Char) (n : Nat) : (alloc junk n).length = n := by
  simp [alloc]

theorem cstr_append_nul (s t : List Char) (hs : NUL ∉ s) : cstr (s ++ NUL :: t) = s := by
  unfold cstr
  rw [List.takeWhile_append_of_pos]
  · simp
  · intro a ha
    have : a ≠ NUL := fun h => hs (h ▸ ha)
    simpa using this

theorem c_str_append_nul (s t : List Char) (hs : NUL ∉ s) : c_str (s ++ NUL :: t) = some s := by
  simp [c_str, cstr_append_nul s t hs]

theorem strrchr_none (s : List Char) (c : Char) (h : c ∉ s) : strrchr s c = none := by
  induction s with
  | nil => rfl
  | cons x xs ih =>
    have hx : ¬ x = c := fun e => h (by simp [e])
    have hxs : c ∉ xs := fun m => h (List.mem_cons_of_mem _ m)
    simp [strrchr, ih hxs, hx]

theorem strrchr_last (stem rest : List Char) (c : Char) (h : c ∉ rest) :
    strrchr (stem ++ c :: rest) c = some (c :: rest) := by
  induction stem with
  | nil => simp [strrchr, strrchr_none rest c h]
  | cons x xs ih => simp [strrchr, ih]

theorem strcmp_eq_zero (a b : List Char) : strcmp a b = 0 ↔ a = b := by
  induction a generalizing b with
  | nil => cases b <;> simp [strcmp]
  | cons x xs ih =>
    cases b with
    | nil => simp [strcmp]
    | cons y ys =>
      by_cases hxy : x = y
      · simp [strcmp, hxy, ih]
      · by_cases hlt : x.toNat < y.toNat <;> simp [strcmp, hxy, hlt]

theorem strcpy_eq (dst src : List Char) (h : src.length < dst.length) :
    strcpy dst src = some (src ++ NUL :: dst.drop (src.length + 1)) := by
  simp [strcpy, h]

theorem poke_append (s t : List Char) (i : Nat) (c : Char) (h : i < t.length) :
    poke (s ++ t) (s.length + i) c = some (s ++ t.set i c) := by
  have h1 : s.length + i < (s ++ t).length := by simp [h]
  simp [poke, List.set_append]
  omega

/-! ## Entrypoint resolution -/

theorem strrchr_ext_py (stem : List Char) : strrchr (stem ++ EXT_PY) '.' = some EXT_PY := by
  have := strrchr_last stem ['p', 'y'] '.' (by decide)
  simpa [EXT_PY] using this

theorem strrchr_ext_pyc (stem : List Char) : strrchr (stem ++ EXT_PYC) '.' = some EXT_PYC := by
  have := strrchr_last stem ['p', 'y', 'c'] '.' (by decide)
  simpa [EXT_PYC] using this

theorem nul_not_mem_ext_py : NUL ∉ EXT_PY := by decide

theorem nul_not_mem_ext_pyc : NUL ∉ EXT_PYC := by decide

/-- The three stores of the ".py" branch: `strcpy`, the terminator at
`len + 1` and the `c` at `len`. -/
theorem py_branch_stores (spec buf : List Char) (hlen : spec.length + 2 ≤ buf.length) :
    (do
      let e1 ← strcpy buf spec
      let e2 ← poke e1 (spec.length + 1) NUL
      poke e2 spec.length 'c') = some (spec ++ 'c' :: NUL :: buf.drop (spec.length + 2)) := by
  have h1 : spec.length < buf.length := by omega
  have h2 : spec.length + 1 < buf.length := by omega
  rw [strcpy_eq buf spec h1, List.drop_eq_getElem_cons h2]
  simp only [Option.some_bind, Option.bind_eq_bind]
  have hp := poke_append spec (NUL :: buf[spec.length + 1] :: buf.drop (spec.length + 1 + 1)) 1 NUL (by simp [List.length_cons]; try omega)
  rw [hp]
  simp only [Option.some_bind, List.set_cons_succ, List.set_cons_zero]
  have := poke_append spec (NUL :: NUL :: buf.drop (spec.length + 1 + 1)) 0 'c' (by simp)
  simpa using this

theorem ext_pyc_eq : EXT_PYC = EXT_PY ++ ['c'] := rfl

/-- The whole ".py" branch, for any answers of `file_exists`. -/
theorem resolve_py (fe : List Char → Bool) (stem buf : List Char) (hnul : NUL ∉ stem)
    (hlen : (stem ++ EXT_PY).length ≤ 126) (hbuf : buf.length = 128) :
    resolve_entrypoint fe (stem ++ EXT_PY) buf =
      some (if fe (stem ++ EXT_PY ++ ['c']) = true then
          ⟨stem ++ EXT_PY ++ 'c' :: NUL :: buf.drop ((stem ++ EXT_PY).length + 2),
            [.access (stem ++ EXT_PY ++ ['c'])], none⟩
        else if fe (stem ++ EXT_PY) = true then
          ⟨stem ++ EXT_PY ++ NUL :: NUL :: buf.drop ((stem ++ EXT_PY).length + 2),
            [.access (stem ++ EXT_PY ++ ['c']), .access (stem ++ EXT_PY)], none⟩
        else
          ⟨stem ++ EXT_PY ++ 'c' :: NUL :: buf.drop ((stem ++ EXT_PY).length + 2),
            [.access (stem ++ EXT_PY ++ ['c']), .access (stem ++ EXT_PY),
              .logp "Entrypoint not found (.py), abort."], some (-1)⟩) := by
  have hstores := py_branch_stores (stem ++ EXT_PY) buf (by omega)
  have hn : NUL ∉ stem ++ EXT_PY ++ ['c'] := by
    simp only [List.mem_append, not_or]
    exact ⟨⟨hnul, nul_not_mem_ext_py⟩, by decide⟩
  have hc : c_str (stem ++ EXT_PY ++ 'c' :: NUL :: buf.drop ((stem ++ EXT_PY).length + 2))
      = some (stem ++ EXT_PY ++ ['c']) := by
    have := c_str_append_nul (stem ++ EXT_PY ++ ['c']) (buf.drop ((stem ++ EXT_PY).length + 2)) hn
    simpa using this
  have hcpy : strcpy (stem ++ EXT_PY ++ 'c' :: NUL :: buf.drop ((stem ++ EXT_PY).length + 2))
      (stem ++ EXT_PY) =
      some (stem ++ EXT_PY ++ NUL :: NUL :: buf.drop ((stem ++ EXT_PY).length + 2)) := by
    rw [strcpy_eq _ _ (by simp)]
    congr 2
    have := @List.drop_append _ (stem ++ EXT_PY)
      ('c' :: NUL :: buf.drop ((stem ++ EXT_PY).length + 2)) 1
    simpa using this
  have h1 : ¬ (stem ++ EXT_PY).length > ENTRYPOINT_MAXLEN - 2 := by
    simp only [ENTRYPOINT_MAXLEN]; omega
  have h2 : ¬ strcmp EXT_PY EXT_PYC = 0 := by decide
  have h3 : strcmp EXT_PY EXT_PY = 0 := by decide
  unfold resolve_entrypoint
  rw [strrchr_ext_py]
  simp only [h1, h2, h3, if_false, if_true]
  simp only [Option.bind_eq_bind] at hstores ⊢
  cases hA : strcpy buf (stem ++ EXT_PY) with
  | none => rw [hA] at hstores; simp at hstores
  | some e1 =>
    rw [hA] at hstores
    simp only [Option.some_bind] at hstores ⊢
    cases hB : poke e1 ((stem ++ EXT_PY).length + 1) NUL with
    | none => rw [hB] at hstores; simp at hstores
    | some e2 =>
      rw [hB] at hstores
      simp only [Option.some_bind] at hstores ⊢
      rw [hstores]
      simp only [Option.some_bind, hc]
      simp only [hcpy, Option.some_bind]
      generalize fe (stem ++ EXT_PY ++ ['c']) = b1
      generalize fe (stem ++ EXT_PY) = b2
      cases b1 <;> cases b2 <;> simp

/-- The whole ".pyc" branch, for any answers of `file_exists`. -/
theorem resolve_pyc (fe : List Char → Bool) (stem buf : List Char) (hnul : NUL ∉ stem)
    (hlen : (stem ++ EXT_PYC).length ≤ 126) (hbuf : buf.length = 128) :
    resolve_entrypoint fe (stem ++ EXT_PYC) buf =
      some (if fe (stem ++ EXT_PYC) = true then
          ⟨stem ++ EXT_PYC ++ NUL :: buf.drop ((stem ++ EXT_PYC).length + 1),
            [.access (stem ++ EXT_PYC)], none⟩
        else if fe (stem ++ EXT_PY) = true then
          ⟨stem ++ EXT_PY ++ NUL :: NUL :: buf.drop ((stem ++ EXT_PYC).length + 1),
            [.access (stem ++ EXT_PYC), .logp (String.mk (stem ++ EXT_PY)),
              .access (stem ++ EXT_PY)], none⟩
        else
          ⟨stem ++ EXT_PY ++ NUL :: NUL :: buf.drop ((stem ++ EXT_PYC).length + 1),
            [.access (stem ++ EXT_PYC), .logp (String.mk (stem ++ EXT_PY)),
              .access (stem ++ EXT_PY),
              .logp "Entrypoint not found (.pyc, fallback on .py), abort"], some (-1)⟩) := by
  have hl : (stem ++ EXT_PYC).length = (stem ++ EXT_PY).length + 1 := by
    simp [EXT_PYC, EXT_PY]
  have hsub : size_sub (stem ++ EXT_PYC).length 1 = (stem ++ EXT_PY).length + 0 := by
    rw [size_sub_of_le _ _ (by omega) (by unfold SIZE_MOD; omega)]
    omega
  have hcpy : strcpy buf (stem ++ EXT_PYC)
      = some (stem ++ EXT_PYC ++ NUL :: buf.drop ((stem ++ EXT_PYC).length + 1)) :=
    strcpy_eq _ _ (by omega)
  have hsplit : stem ++ EXT_PYC ++ NUL :: buf.drop ((stem ++ EXT_PYC).length + 1)
      = (stem ++ EXT_PY) ++ ('c' :: NUL :: buf.drop ((stem ++ EXT_PYC).length + 1)) := by
    simp [EXT_PYC, EXT_PY]
  have hpoke : poke (stem ++ EXT_PYC ++ NUL :: buf.drop ((stem ++ EXT_PYC).length + 1))
      (size_sub (stem ++ EXT_PYC).length 1) NUL
      = some (stem ++ EXT_PY ++ NUL :: NUL :: buf.drop ((stem ++ EXT_PYC).length + 1)) := by
    rw [hsub, hsplit, poke_append _ _ 0 NUL (by simp)]
    simp
  have hn : NUL ∉ stem ++ EXT_PY := by
    simp only [List.mem_append, not_or]
    exact ⟨hnul, nul_not_mem_ext_py⟩
  have hc : c_str (stem ++ EXT_PY ++ NUL :: NUL :: buf.drop ((stem ++ EXT_PYC).length + 1))
      = some (stem ++ EXT_PY) := c_str_append_nul _ _ hn
  have h1 : ¬ (stem ++ EXT_PYC).length > ENTRYPOINT_MAXLEN - 2 := by
    simp only [ENTRYPOINT_MAXLEN]; omega
  have h2 : strcmp EXT_PYC EXT_PYC = 0 := by decide
  unfold resolve_entrypoint
  rw [strrchr_ext_pyc]
  simp only [h1, h2, if_false, if_true, Option.bind_eq_bind, hcpy, Option.some_bind, hpoke, hc]
  generalize fe (stem ++ EXT_PYC) = b1
  generalize fe (stem ++ EXT_PY) = b2
  cases b1 <;> cases b2 <;> simp

theorem resolve_no_dot (fe : List Char → Bool) (spec buf : List Char) (h : '.' ∉ spec) :
    resolve_entrypoint fe spec buf =
      some ⟨buf, [.logp "Invalid entrypoint, abort."], some (-1)⟩ := by
  simp [resolve_entrypoint, strrchr_none spec '.' h]

theorem strrchr_some_of_mem (s : List Char) (c : Char) (h : c ∈ s) :
    ∃ stem rest, s = stem ++ c :: rest ∧ c ∉ rest := by
  induction s with
  | nil => simp at h
  | cons x xs ih =>
    by_cases hxs : c ∈ xs
    · obtain ⟨stem, rest, e, hr⟩ := ih hxs
      exact ⟨x :: stem, rest, by simp [e], hr⟩
    · have hx : c = x := by
        rcases List.mem_cons.mp h with h1 | h1
        · exact h1
        · exact absurd h1 hxs
      exact ⟨[], xs, by simp [hx], hxs⟩

theorem resolve_too_long (fe : List Char → Bool) (spec buf : List Char) (h : '.' ∈ spec)
    (hlen : 126 < spec.length) :
    resolve_entrypoint fe spec buf =
      some ⟨buf, [.logp "Entrypoint path is too long, try increasing ENTRYPOINT_MAXLEN."],
        some (-1)⟩ := by
  obtain ⟨stem, rest, e, hr⟩ := strrchr_some_of_mem spec '.' h
  have h1 : spec.length > ENTRYPOINT_MAXLEN - 2 := by simp only [ENTRYPOINT_MAXLEN]; omega
  unfold resolve_entrypoint
  rw [e, strrchr_last stem rest '.' hr]
  rw [e] at h1
  simp only [h1, if_true]

theorem resolve_invalid_ext (fe : List Char → Bool) (stem rest buf : List Char)
    (hr : '.' ∉ rest) (hlen : (stem ++ '.' :: rest).length ≤ 126)
    (hpy : rest ≠ ['p', 'y']) (hpyc : rest ≠ ['p', 'y', 'c']) :
    resolve_entrypoint fe (stem ++ '.' :: rest) buf =
      some ⟨buf,
        [.logp "Entrypoint have an invalid extension (must be .py or .pyc), abort."],
        some (-1)⟩ := by
  have h1 : ¬ (stem ++ '.' :: rest).length > ENTRYPOINT_MAXLEN - 2 := by
    simp only [ENTRYPOINT_MAXLEN]; omega
  have h2 : ¬ strcmp ('.' :: rest) EXT_PYC = 0 := by
    rw [strcmp_eq_zero]; simpa [EXT_PYC] using hpyc
  have h3 : ¬ strcmp ('.' :: rest) EXT_PY = 0 := by
    rw [strcmp_eq_zero]; simpa [EXT_PY] using hpy
  unfold resolve_entrypoint
  rw [strrchr_last stem rest '.' hr]
  simp only [h1, h2, h3, if_false]

theorem main_of_resolve_ret (h : Host) (junk : Nat → Char) (spec : List Char) (r : Resolution)
    (code : Int)
    (hr : resolve_entrypoint h.file_exists spec (alloc junk ENTRYPOINT_MAXLEN) = some r)
    (hc : r.ret = some code) : main h junk spec = some (main_init h ++ r.events, code) := by
  simp [main, hr, hc]

/-! ## Bounded copies -/

theorem replicate_nul_cons (k : Nat) (t : List Char) :
    List.replicate k NUL ++ NUL :: t = NUL :: (List.replicate k NUL ++ t) := by
  induction k with
  | zero => rfl
  | succ k ih => simp [List.replicate_succ, ih]

/-- The idiom `strncpy(out, src, n); out[n] = 0` with `n` inside the array:
`out` then holds the first `n` characters of `src`. -/
theorem strncpy_then_terminate (out src : List Char) (n : Nat) (hn : n < out.length)
    (hnul : NUL ∉ src) :
    ∃ b, (strncpy out src n).bind (fun o => poke o n NUL) = some b ∧
      b.length = out.length ∧ c_str b = some (src.take n) := by
  have hA : (src.take n ++ List.replicate (n - src.length) NUL).length = n := by
    simp only [List.length_append, List.length_take, List.length_replicate]
    omega
  have hcpy : strncpy out src n =
      some ((src.take n ++ List.replicate (n - src.length) NUL) ++ out.drop n) := by
    simp [strncpy, Nat.le_of_lt hn]
  have hpk := poke_append (src.take n ++ List.replicate (n - src.length) NUL) (out.drop n) 0 NUL
    (by simp only [List.length_drop]; omega)
  rw [hA, Nat.add_zero] at hpk
  refine ⟨_, by rw [hcpy, Option.some_bind, hpk], ?_, ?_⟩
  · simp only [List.length_append, List.length_set, List.length_drop, hA]
    omega
  · rw [List.drop_eq_getElem_cons hn, List.set_cons_zero, List.append_assoc,
      replicate_nul_cons]
    exact c_str_append_nul _ _ (fun hm => hnul (List.mem_of_mem_take hm))

theorem strncmp_lib (f : List Char) : strncmp f LIB 3 = 0 ↔ LIB <+: f := by
  unfold strncmp
  rw [strcmp_eq_zero, List.prefix_iff_eq_take]
  simp only [LIB, List.take, List.length_cons, List.length_nil]
  exact eq_comm

/-! ## Claims on entrypoint resolution -/

/-- C1. For an entrypoint `spec = stem ++ ".py"` (so `strrchr` finds ".py" as
its text from the last dot) of at most 126 characters: if the file `spec ++ "c"` exists,
resolution leaves `spec ++ "c"` in `entrypoint` and goes on to open it, whether
or not `spec` exists; otherwise, if `spec` exists, it leaves `spec`; otherwise
it logs "Entrypoint not found (.py), abort." and `main` returns -1. -/
theorem entrypoint_py_resolution (h : Host) (junk : Nat → Char) (stem : List Char)
    (hnul : NUL ∉ stem) (hlen : (stem ++ EXT_PY).length ≤ 126) :
    strrchr (stem ++ EXT_PY) '.' = some EXT_PY ∧
    ∃ r, resolve_entrypoint h.file_exists (stem ++ EXT_PY) (alloc junk ENTRYPOINT_MAXLEN) = some r ∧
      (h.file_exists (stem ++ EXT_PY ++ ['c']) = true →
        r.ret = none ∧ c_str r.entrypoint = some (stem ++ EXT_PY ++ ['c'])) ∧
      (h.file_exists (stem ++ EXT_PY ++ ['c']) = false →
        h.file_exists (stem ++ EXT_PY) = true →
        r.ret = none ∧ c_str r.entrypoint = some (stem ++ EXT_PY)) ∧
      (h.file_exists (stem ++ EXT_PY ++ ['c']) = false →
        h.file_exists (stem ++ EXT_PY) = false →
        r.ret = some (-1) ∧
        r.events.getLast? = some (Event.logp "Entrypoint not found (.py), abort.") ∧
        main h junk (stem ++ EXT_PY) = some (main_init h ++ r.events, -1)) := by
  have hres := resolve_py h.file_exists stem (alloc junk ENTRYPOINT_MAXLEN) hnul hlen
    (length_alloc junk 128)
  have hn1 : NUL ∉ stem ++ EXT_PY := by
    simp only [List.mem_append, not_or]
    exact ⟨hnul, nul_not_mem_ext_py⟩
  have hn2 : NUL ∉ stem ++ EXT_PY ++ ['c'] := by
    simp only [List.mem_append, not_or]
    exact ⟨⟨hnul, nul_not_mem_ext_py⟩, by decide⟩
  refine ⟨strrchr_ext_py stem, _, hres, ?_, ?_, ?_⟩
  · intro f1
    rw [if_pos f1]
    refine ⟨rfl, ?_⟩
    have := c_str_append_nul (stem ++ EXT_PY ++ ['c'])
      ((alloc junk ENTRYPOINT_MAXLEN).drop ((stem ++ EXT_PY).length + 2)) hn2
    simpa using this
  · intro f1 f2
    rw [if_neg (by rw [f1]; simp), if_pos f2]
    exact ⟨rfl, c_str_append_nul _ _ hn1⟩
  · intro f1 f2
    have hr := hres
    rw [if_neg (by rw [f1]; simp), if_neg (by rw [f2]; simp)] at hr ⊢
    exact ⟨rfl, rfl, main_of_resolve_ret h junk _ _ (-1) hr rfl⟩

/-- C1 on a device holding both `main.py` and `main.pyc`: `main.pyc` is chosen. -/
theorem entrypoint_py_resolution_witness :
    ∃ r, resolve_entrypoint
        (sample_host ["main.py".toList, "main.pyc".toList] false).file_exists
        "main.py".toList (alloc sample_junk ENTRYPOINT_MAXLEN) = some r ∧
      r.ret = none ∧ c_str r.entrypoint = some "main.pyc".toList := by
  obtain ⟨_, r, hr, h1, _, _⟩ := entrypoint_py_resolution
    (sample_host ["main.py".toList, "main.pyc".toList] false) sample_junk "main".toList
    (by decide) (by decide)
  exact ⟨r, hr, h1 (by decide)⟩

/-- C3. The validation failures depend on the entrypoint string only, in rule
order and whatever files exist: without a dot `main` logs "Invalid entrypoint,
abort."; otherwise with more than 126 characters it logs "Entrypoint path is
too long, ..."; otherwise, when the text from the last dot is neither ".py" nor
".pyc", it logs "Entrypoint have an invalid extension ...".  Each time `main`
returns -1, the `entrypoint` array is untouched and no `file_exists` call is
made. -/
theorem entrypoint_validation (h : Host) (junk : Nat → Char) (spec : List Char) :
    ('.' ∉ spec →
      (∀ buf, resolve_entrypoint h.file_exists spec buf =
        some ⟨buf, [Event.logp "Invalid entrypoint, abort."], some (-1)⟩) ∧
      main h junk spec =
        some (main_init h ++ [Event.logp "Invalid entrypoint, abort."], -1)) ∧
    ('.' ∈ spec → 126 < spec.length →
      (∀ buf, resolve_entrypoint h.file_exists spec buf =
        some ⟨buf,
          [Event.logp "Entrypoint path is too long, try increasing ENTRYPOINT_MAXLEN."],
          some (-1)⟩) ∧
      main h junk spec =
        some (main_init h ++
          [Event.logp "Entrypoint path is too long, try increasing ENTRYPOINT_MAXLEN."], -1)) ∧
    (∀ stem rest, spec = stem ++ '.' :: rest → '.' ∉ rest → spec.length ≤ 126 →
      '.' :: rest ≠ EXT_PY → '.' :: rest ≠ EXT_PYC →
      (∀ buf, resolve_entrypoint h.file_exists spec buf =
        some ⟨buf,
          [Event.logp "Entrypoint have an invalid extension (must be .py or .pyc), abort."],
          some (-1)⟩) ∧
      main h junk spec =
        some (main_init h ++
          [Event.logp "Entrypoint have an invalid extension (must be .py or .pyc), abort."],
          -1)) := by
  refine ⟨?_, ?_, ?_⟩
  · intro hdot
    have hr := resolve_no_dot h.file_exists spec
    exact ⟨fun buf => hr buf hdot, main_of_resolve_ret h junk _ _ (-1) (hr _ hdot) rfl⟩
  · intro hdot hlen
    have hr := resolve_too_long h.file_exists spec
    exact ⟨fun buf => hr buf hdot hlen, main_of_resolve_ret h junk _ _ (-1) (hr _ hdot hlen) rfl⟩
  · intro stem rest e hrest hlen hpy hpyc
    subst e
    have hr := fun buf => resolve_invalid_ext h.file_exists stem rest buf hrest hlen
      (by simpa [EXT_PY] using hpy) (by simpa [EXT_PYC] using hpyc)
    exact ⟨hr, main_of_resolve_ret h junk _ _ (-1) (hr _) rfl⟩

/-- C3 at "main" (no dot) and at "main.txt" (a wrong extension), on a device
where both files exist. -/
theorem entrypoint_validation_witness :
    main (sample_host ["main".toList, "main.txt".toList] false) sample_junk "main".toList =
      some (main_init (sample_host ["main".toList, "main.txt".toList] false) ++
        [Event.logp "Invalid entrypoint, abort."], -1) ∧
    main (sample_host ["main".toList, "main.txt".toList] false) sample_junk "main.txt".toList =
      some (main_init (sample_host ["main".toList, "main.txt".toList] false) ++
        [Event.logp "Entrypoint have an invalid extension (must be .py or .pyc), abort."],
        -1) :=
  ⟨((entrypoint_validation (sample_host ["main".toList, "main.txt".toList] false) sample_junk
      "main".toList).1 (by decide)).2,
   ((entrypoint_validation (sample_host ["main".toList, "main.txt".toList] false) sample_junk
      "main.txt".toList).2.2 "main".toList "txt".toList (by decide) (by decide) (by decide)
      (by decide) (by decide)).2⟩

/-! ## The `entrypoint` array -/

theorem ext_of_decomposition (stem rest stem2 ext : List Char) (hr : '.' ∉ rest)
    (hext : strrchr (stem2 ++ ext) '.' = some ext) (e : stem ++ '.' :: rest = stem2 ++ ext) :
    '.' :: rest = ext := by
  have h1 := strrchr_last stem rest '.' hr
  rw [e, hext] at h1
  exact (Option.some.inj h1).symm

theorem resolve_py_safe (fe : List Char → Bool) (stem buf : List Char) (hnul : NUL ∉ stem)
    (hlen : (stem ++ EXT_PY).length ≤ 126) (hbuf : buf.length = 128) :
    ∃ r, resolve_entrypoint fe (stem ++ EXT_PY) buf = some r ∧ r.entrypoint.length = 128 ∧
      ∃ s, c_str r.entrypoint = some s ∧ s.length ≤ 127 := by
  have hn1 : NUL ∉ stem ++ EXT_PY := by
    simp only [List.mem_append, not_or]
    exact ⟨hnul, nul_not_mem_ext_py⟩
  have hn2 : NUL ∉ stem ++ EXT_PY ++ ['c'] := by
    simp only [List.mem_append, not_or]
    exact ⟨⟨hnul, nul_not_mem_ext_py⟩, by decide⟩
  have hc2 : c_str (stem ++ EXT_PY ++ 'c' :: NUL :: buf.drop ((stem ++ EXT_PY).length + 2))
      = some (stem ++ EXT_PY ++ ['c']) := by
    have := c_str_append_nul (stem ++ EXT_PY ++ ['c']) (buf.drop ((stem ++ EXT_PY).length + 2)) hn2
    simpa using this
  have hl2 : (stem ++ EXT_PY ++ 'c' :: NUL :: buf.drop ((stem ++ EXT_PY).length + 2)).length
      = 128 := by
    simp only [List.length_append, List.length_cons, List.length_drop] at hlen ⊢
    omega
  have hl1 : (stem ++ EXT_PY ++ NUL :: NUL :: buf.drop ((stem ++ EXT_PY).length + 2)).length
      = 128 := by
    simp only [List.length_append, List.length_cons, List.length_drop] at hlen ⊢
    omega
  have hs2 : (stem ++ EXT_PY ++ ['c']).length ≤ 127 := by
    simp only [List.length_append, List.length_cons, List.length_nil] at hlen ⊢
    omega
  refine ⟨_, resolve_py fe stem buf hnul hlen hbuf, ?_⟩
  split
  · exact ⟨hl2, _, hc2, hs2⟩
  · split
    · exact ⟨hl1, _, c_str_append_nul _ _ hn1, by omega⟩
    · exact ⟨hl2, _, hc2, hs2⟩

theorem resolve_pyc_safe (fe : List Char → Bool) (stem buf : List Char) (hnul : NUL ∉ stem)
    (hlen : (stem ++ EXT_PYC).length ≤ 126) (hbuf : buf.length = 128) :
    ∃ r, resolve_entrypoint fe (stem ++ EXT_PYC) buf = some r ∧ r.entrypoint.length = 128 ∧
      ∃ s, c_str r.entrypoint = some s ∧ s.length ≤ 127 := by
  have hn1 : NUL ∉ stem ++ EXT_PY := by
    simp only [List.mem_append, not_or]
    exact ⟨hnul, nul_not_mem_ext_py⟩
  have hn2 : NUL ∉ stem ++ EXT_PYC := by
    simp only [List.mem_append, not_or]
    exact ⟨hnul, nul_not_mem_ext_pyc⟩
  have hl2 : (stem ++ EXT_PYC ++ NUL :: buf.drop ((stem ++ EXT_PYC).length + 1)).length
      = 128 := by
    simp only [List.length_append, List.length_cons, List.length_drop] at hlen ⊢
    omega
  have hl1 : (stem ++ EXT_PY ++ NUL :: NUL :: buf.drop ((stem ++ EXT_PYC).length + 1)).length
      = 128 := by
    simp only [List.length_append, List.length_cons, List.length_drop, EXT_PY, EXT_PYC,
      List.length_nil] at hlen ⊢
    omega
  have hs1 : (stem ++ EXT_PY).length ≤ 127 := by
    simp only [List.length_append, List.length_cons, List.length_nil, EXT_PY, EXT_PYC] at hlen ⊢
    omega
  refine ⟨_, resolve_pyc fe stem buf hnul hlen hbuf, ?_⟩
  split
  · exact ⟨hl2, _, c_str_append_nul _ _ hn2, by omega⟩
  · split
    · exact ⟨hl1, _, c_str_append_nul _ _ hn1, hs1⟩
    · exact ⟨hl1, _, c_str_append_nul _ _ hn1, hs1⟩

/-- C10 as stated fails: "main.txt" has a dot and 8 characters, so it passes
the dot and length checks, yet resolution stores nothing into `entrypoint`; on
a stack full of `x` the array then holds no `NUL` at all. -/
theorem entrypoint_buffer_counterexample :
    ¬ (∀ (fe : List Char → Bool) (junk : Nat → Char) (spec : List Char),
        NUL ∉ spec → '.' ∈ spec → spec.length ≤ 126 →
        ∃ r, resolve_entrypoint fe spec (alloc junk ENTRYPOINT_MAXLEN) = some r ∧
          ∃ s, c_str r.entrypoint = some s ∧ s.length ≤ 127) := by
  intro hall
  obtain ⟨r, hr, s, hs, _⟩ := hall (fun _ => false) sample_junk "main.txt".toList
    (by decide) (by decide) (by decide)
  have hres : resolve_entrypoint (fun _ => false) "main.txt".toList
      (alloc sample_junk ENTRYPOINT_MAXLEN) =
      some ⟨alloc sample_junk ENTRYPOINT_MAXLEN,
        [Event.logp "Entrypoint have an invalid extension (must be .py or .pyc), abort."],
        some (-1)⟩ :=
    resolve_invalid_ext _ "main".toList "txt".toList _ (by decide) (by decide) (by decide)
      (by decide)
  rw [hres] at hr
  have he : r.entrypoint = alloc sample_junk ENTRYPOINT_MAXLEN := by
    rw [← Option.some.inj hr]
  have hnone : c_str (alloc sample_junk ENTRYPOINT_MAXLEN) = none := by
    have hmem : NUL ∉ alloc sample_junk ENTRYPOINT_MAXLEN := by
      simp [alloc, sample_junk, NUL]
    simp [c_str, hmem]
  rw [he, hnone] at hs
  exact absurd hs (by simp)

/-- C10, amended.  For an entrypoint that passes the dot and length checks (at
most 126 characters), resolution never stores outside the 128 bytes of
`entrypoint` (the model returns `some`, and the array keeps its 128 bytes).
When the text from the last dot is ".py" or ".pyc", the array ends up holding a
NUL-terminated string of at most 127 characters, whatever it held before; with
any other extension the array is left as it was. -/
theorem entrypoint_buffer_safety (fe : List Char → Bool) (junk : Nat → Char)
    (spec : List Char) (hnul : NUL ∉ spec) (hdot : '.' ∈ spec) (hlen : spec.length ≤ 126) :
    ∃ r, resolve_entrypoint fe spec (alloc junk ENTRYPOINT_MAXLEN) = some r ∧
      r.entrypoint.length = 128 ∧
      ((∃ stem, spec = stem ++ EXT_PY ∨ spec = stem ++ EXT_PYC) →
        ∃ s, c_str r.entrypoint = some s ∧ s.length ≤ 127) ∧
      ((¬ ∃ stem, spec = stem ++ EXT_PY ∨ spec = stem ++ EXT_PYC) →
        r.entrypoint = alloc junk ENTRYPOINT_MAXLEN) := by
  obtain ⟨stem, rest, e, hr⟩ := strrchr_some_of_mem spec '.' hdot
  have hstem : NUL ∉ stem := fun hm => hnul (by rw [e]; exact List.mem_append_left _ hm)
  have hbuf : (alloc junk ENTRYPOINT_MAXLEN).length = 128 := length_alloc junk 128
  by_cases hpy : '.' :: rest = EXT_PY
  · have e2 : spec = stem ++ EXT_PY := by rw [e, hpy]
    subst e2
    obtain ⟨r, h1, h2, h3⟩ := resolve_py_safe fe stem _ hstem hlen hbuf
    exact ⟨r, h1, h2, fun _ => h3, fun hno => absurd ⟨stem, Or.inl rfl⟩ hno⟩
  · by_cases hpyc : '.' :: rest = EXT_PYC
    · have e2 : spec = stem ++ EXT_PYC := by rw [e, hpyc]
      subst e2
      obtain ⟨r, h1, h2, h3⟩ := resolve_pyc_safe fe stem _ hstem hlen hbuf
      exact ⟨r, h1, h2, fun _ => h3, fun hno => absurd ⟨stem, Or.inr rfl⟩ hno⟩
    · subst e
      have hres := resolve_invalid_ext fe stem rest (alloc junk ENTRYPOINT_MAXLEN) hr hlen
        (by simpa [EXT_PY] using hpy) (by simpa [EXT_PYC] using hpyc)
      refine ⟨_, hres, hbuf, ?_, fun _ => rfl⟩
      rintro ⟨stem2, e2 | e2⟩
      · exact absurd (ext_of_decomposition stem rest stem2 EXT_PY hr (strrchr_ext_py stem2) e2) hpy
      · exact absurd (ext_of_decomposition stem rest stem2 EXT_PYC hr (strrchr_ext_pyc stem2) e2)
          hpyc

/-- C10, amended, at the longest accepted ".py" entrypoint: 123 letters and
".py", 126 characters, to which `c` and the terminator are appended. -/
theorem entrypoint_buffer_safety_witness :
    ∃ r, resolve_entrypoint (fun _ => true) (List.replicate 123 'a' ++ EXT_PY)
        (alloc sample_junk ENTRYPOINT_MAXLEN) = some r ∧
      r.entrypoint.length = 128 ∧
      ∃ s, c_str r.entrypoint = some s ∧ s.length ≤ 127 := by
  obtain ⟨r, h1, h2, h3, _⟩ := entrypoint_buffer_safety (fun _ => true) sample_junk
    (List.replicate 123 'a' ++ EXT_PY) (by decide) (by decide) (by decide)
  exact ⟨r, h1, h2, h3 ⟨List.replicate 123 'a', Or.inl rfl⟩⟩

/-! ## Interpreter initialisation -/

/-- C9, the code at a failing launch.  On a Python 3.11 device whose
`Py_InitializeFromConfig` reports an exception and that holds `main.py`, `main`
logs the failure and carries on: it logs "Initialized python", runs every
bootstrap fragment and the entrypoint file, and ends with result 0. -/
theorem main_after_init_exception :
    main (sample_host ["main.py".toList] true) sample_junk "main.py".toList =
      some ([Event.py_init_from_config,
        Event.logp "Python initialization failed:",
        Event.logp "init failed",
        Event.logp "Initialized python",
        Event.run_simple_string Fragment.test_redirection,
        Event.run_simple_string Fragment.import_io_sys_posix,
        Event.run_simple_string Fragment.import_sys_os,
        Event.run_simple_string Fragment.set_executable,
        Event.run_simple_string Fragment.set_argv,
        Event.run_simple_string Fragment.add_site_packages_dir,
        Event.run_simple_string Fragment.path_dot,
        Event.run_simple_string Fragment.pythonpath,
        Event.run_simple_string Fragment.logfile,
        Event.access "main.pyc".toList,
        Event.access "main.py".toList,
        Event.fopen "main.py".toList,
        Event.run_simple_file "main.py".toList,
        Event.fclose,
        Event.logp "Python for android ended.",
        Event.finalize], 0) := by
  decide

/-! ## Claims on `get_exe_name` -/

theorem get_exe_name_core (start out : List Char) (size : Nat) (hnul : NUL ∉ start)
    (hsize : 0 < size) (hmax : size < SIZE_MOD) (hout : out.length = size) :
    ∃ b, (if start.length > 6 then
          (strncpy out start (if start.length - 6 ≥ size then size_sub size 1
            else start.length - 6)).bind
            (fun o => poke o (if start.length - 6 ≥ size then size_sub size 1
              else start.length - 6) NUL)
        else
          (strncpy out start (size_sub size 1)).bind
            (fun o => poke o (size_sub size 1) NUL)) = some b ∧
      b.length = size ∧
      c_str b = some ((if start.length > 6 then start.take (start.length - 6)
        else start).take (size - 1)) := by
  have h1 : size_sub size 1 = size - 1 := size_sub_of_le size 1 hsize hmax
  rw [h1]
  by_cases hg : start.length > 6
  · simp only [hg, if_true]
    by_cases hbig : start.length - 6 ≥ size
    · simp only [hbig, if_true]
      obtain ⟨b, hb, hl, hc⟩ := strncpy_then_terminate out start (size - 1) (by omega) hnul
      refine ⟨b, hb, by omega, ?_⟩
      rw [hc, List.take_take, Nat.min_eq_left (by omega)]
    · simp only [hbig, if_false]
      obtain ⟨b, hb, hl, hc⟩ :=
        strncpy_then_terminate out start (start.length - 6) (by omega) hnul
      refine ⟨b, hb, by omega, ?_⟩
      rw [hc, List.take_take, Nat.min_eq_right (by omega)]
  · simp only [hg, if_false]
    obtain ⟨b, hb, hl, hc⟩ := strncpy_then_terminate out start (size - 1) (by omega) hnul
    exact ⟨b, hb, by omega, hc⟩

/-- C4, amended.  With an output array of `size ≥ 1` bytes, `get_exe_name`
leaves in `out` the first `size - 1` characters of a name `name`, where: for a
filename `f` shorter than 7 characters `name` is `f`; for a longer `f` that
ends in "bin.so", `name` is `f` with one leading "lib" removed if `f` starts
with "lib" and then, only when more than 6 characters remain, with the trailing
"bin.so" removed (when 6 or fewer remain, the "bin.so" stays). -/
theorem get_exe_name_result (f out : List Char) (size : Nat) (hnul : NUL ∉ f)
    (hsize : 0 < size) (hmax : size < SIZE_MOD) (hout : out.length = size) :
    ∃ b, get_exe_name f out size = some b ∧ b.length = size ∧
      ∃ name, c_str b = some (name.take (size - 1)) ∧
        (f.length < 7 → name = f) ∧
        (7 ≤ f.length → BIN_SO <:+ f →
          (∀ g, f = LIB ++ g →
            (6 < g.length → g = name ++ BIN_SO) ∧ (g.length ≤ 6 → name = g)) ∧
          (¬ LIB <+: f → f = name ++ BIN_SO)) := by
  have h1 : size_sub size 1 = size - 1 := size_sub_of_le size 1 hsize hmax
  have hstrip : ∀ s : List Char, 6 < s.length → BIN_SO <:+ s →
      s = s.take (s.length - 6) ++ BIN_SO := by
    intro s _ hs
    obtain ⟨t, rfl⟩ := hs
    simp [BIN_SO]
  unfold get_exe_name
  dsimp only
  by_cases hlen : f.length < 7
  · rw [if_pos hlen]
    simp only [h1, Option.bind_eq_bind]
    obtain ⟨b, hb, hl, hc⟩ := strncpy_then_terminate out f (size - 1) (by omega) hnul
    exact ⟨b, hb, by omega, f, hc, fun _ => rfl, fun h7 => absurd hlen (by omega)⟩
  · rw [if_neg hlen]
    simp only [Option.bind_eq_bind]
    by_cases hlib : LIB <+: f
    · have hcmp : strncmp f LIB 3 = 0 := (strncmp_lib f).mpr hlib
      simp only [hcmp, if_true]
      have hn : NUL ∉ f.drop 3 := fun hm => hnul (List.mem_of_mem_drop hm)
      obtain ⟨b, hb, hl, hc⟩ := get_exe_name_core (f.drop 3) out size hn hsize hmax hout
      refine ⟨b, hb, hl, _, hc, fun h => absurd h hlen, fun _ hsuf => ⟨?_, fun h => absurd hlib h⟩⟩
      intro g hg
      have hd : f.drop 3 = g := by rw [hg]; simp [LIB]
      rw [hd]
      refine ⟨fun h6 => ?_, fun h6 => ?_⟩
      · rw [if_pos h6]
        have hsg : BIN_SO <:+ g := by
          have : g <:+ f := by rw [hg]; exact List.suffix_append _ _
          exact List.suffix_of_suffix_length_le hsuf this (by simp [BIN_SO]; omega)
        exact hstrip g h6 hsg
      · rw [if_neg (by omega)]
    · have hcmp : ¬ strncmp f LIB 3 = 0 := fun h => hlib ((strncmp_lib f).mp h)
      simp only [hcmp, if_false]
      obtain ⟨b, hb, hl, hc⟩ := get_exe_name_core f out size hnul hsize hmax hout
      refine ⟨b, hb, hl, _, hc, fun h => absurd h hlen, fun h7 hsuf => ⟨?_, fun _ => ?_⟩⟩
      · intro g hg
        exact absurd ⟨g, hg.symm⟩ hlib
      · rw [if_pos (by omega)]
        exact hstrip f (by omega) hsuf

/-- C4, amended, at "libpythonbin.so" with the 128-byte array of the caller. -/
theorem get_exe_name_result_witness :
    ∃ b, get_exe_name "libpythonbin.so".toList (alloc sample_junk 128) 128 = some b ∧
      c_str b = some "python".toList := by
  obtain ⟨b, hb, _, name, hc, _, h2⟩ := get_exe_name_result "libpythonbin.so".toList
    (alloc sample_junk 128) 128 (by decide) (by decide) (by decide) (length_alloc _ _)
  have hname := ((h2 (by decide) (by decide)).1 "pythonbin.so".toList (by decide)).1 (by decide)
  have hn : name = "python".toList :=
    (List.append_cancel_right
      (show "python".toList ++ BIN_SO = name ++ BIN_SO from hname)).symm
  rw [hn] at hc
  exact ⟨b, hb, hc⟩

/-- C4 as stated fails at "libbin.so": it has 9 characters, starts with "lib"
and ends in "bin.so", so the claimed name is empty, but `get_exe_name` leaves
"bin.so" in `out`. -/
theorem get_exe_name_counterexample :
    ¬ (∀ (f out : List Char), NUL ∉ f → out.length = 128 → 7 ≤ f.length → BIN_SO <:+ f →
        ∃ b, get_exe_name f out 128 = some b ∧
          c_str b = some (spec_logical_executable_name f)) := by
  intro hall
  obtain ⟨b, hb, hc⟩ := hall "libbin.so".toList (alloc sample_junk 128) (by decide)
    (by decide) (by decide) (by decide)
  have hcode : get_exe_name "libbin.so".toList (alloc sample_junk 128) 128 =
      some ("bin.so".toList ++ List.replicate 121 NUL ++ [NUL]) := by decide
  rw [hcode] at hb
  rw [← Option.some.inj hb] at hc
  revert hc
  decide

/-! ## The config-file loop -/

theorem strstr_eq_none (line : List Char) (h : '=' ∉ line) : strstr line ['='] = none := by
  induction line with
  | nil => simp [strstr]
  | cons x xs ih =>
    have hx : ¬ x = '=' := fun e => h (by simp [e])
    have hxs : '=' ∉ xs := fun m => h (List.mem_cons_of_mem _ m)
    have hx2 : ¬ '=' = x := fun e => hx e.symm
    simp [strstr, ih hxs, List.isPrefixOf, hx2]

theorem strstr_eq_first (name rest : List Char) (h : '=' ∉ name) :
    strstr (name ++ '=' :: rest) ['='] = some name.length := by
  induction name with
  | nil => simp [strstr, List.isPrefixOf]
  | cons x xs ih =>
    have hx : ¬ x = '=' := fun e => h (by simp [e])
    have hxs : '=' ∉ xs := fun m => h (List.mem_cons_of_mem _ m)
    have hx2 : ¬ '=' = x := fun e => hx e.symm
    simp [strstr, ih hxs, List.isPrefixOf, hx2]

theorem strlen_append_nul (s t : List Char) (hs : NUL ∉ s) :
    strlen (s ++ NUL :: t) = some s.length := by
  simp [strlen, c_str_append_nul s t hs]

theorem ends_with_append_nul (s t : List Char) (c : Char) (hs : NUL ∉ s) :
    ends_with (s ++ NUL :: t) c = some (decide (s.getLast? = some c)) := by
  unfold ends_with
  rw [strlen_append_nul s t hs]
  simp only [Option.bind_eq_bind, Option.some_bind, Option.some.injEq]
  rcases List.eq_nil_or_concat' s with rfl | ⟨u, a, rfl⟩
  · simp
  · have h1 : (u ++ [a] ++ NUL :: t)[(u ++ [a]).length - 1]? = some a := by
      have h2 : u ++ [a] ++ NUL :: t = u ++ a :: NUL :: t := by simp
      have h3 : (u ++ [a]).length - 1 = u.length := by simp
      rw [h2, h3, List.getElem?_append_right (Nat.le_refl _)]
      simp
    rw [h1, List.getLast?_concat]
    by_cases hac : a = c <;> simp [hac]

theorem chop_append_nul (u t : List Char) (a : Char) (hlen : u.length < 256)
    (hs : NUL ∉ u ++ [a]) :
    chop (u ++ [a] ++ NUL :: t) = some (u ++ NUL :: NUL :: t) := by
  unfold chop
  rw [strlen_append_nul _ t hs]
  have h3 : size_sub (u ++ [a]).length 1 = u.length + 0 := by
    rw [size_sub_of_le _ _ (by simp) (by simp [SIZE_MOD]; omega)]
    simp
  have h2 : u ++ [a] ++ NUL :: t = u ++ a :: NUL :: t := by simp
  simp only [Option.bind_eq_bind, Option.some_bind]
  rw [h3, h2, poke_append u _ 0 NUL (by simp)]
  simp

theorem env_line_no_eq (junk : Nat → Char) (line : List Char) (h : '=' ∉ line) :
    env_line junk line = some none := by
  unfold env_line
  rw [strstr_eq_none line h]
  split <;> rfl

/-- The loop body in closed form, for a line whose name and value fit the two
256-byte arrays. -/
theorem env_line_eq (junk : Nat → Char) (name rest : List Char) (hname : '=' ∉ name)
    (hn : NUL ∉ name) (hr : NUL ∉ rest) (h1 : name.length < 256) (h2 : rest.length < 256) :
    env_line junk (name ++ '=' :: rest) = some (some (name, strip_line_break rest)) := by
  have hpos : (name ++ '=' :: rest).length > 0 := by simp
  have hdrop : (name ++ '=' :: rest).drop (name.length + 1) = rest := by
    simp
  -- the array `env_name` after `strncpy`
  have hN : ∃ x, strncpy (alloc junk 256) (name ++ '=' :: rest) 256 = some (name ++ '=' :: x) := by
    refine ⟨((('=' :: rest).take (256 - name.length)).drop 1) ++
      List.replicate (256 - (name ++ '=' :: rest).length) NUL ++ (alloc junk 256).drop 256, ?_⟩
    have ht : (name ++ '=' :: rest).take 256 =
        name ++ '=' :: ((('=' :: rest).take (256 - name.length)).drop 1) := by
      have h3 : 256 = name.length + (256 - name.length) := by omega
      have h4 : 256 - name.length = (255 - name.length) + 1 := by omega
      rw [h3, List.take_append, ← h3, h4]
      simp
    simp [strncpy, length_alloc, ht]
  obtain ⟨x, hx⟩ := hN
  have hpk : poke (name ++ '=' :: x) name.length NUL = some (name ++ NUL :: x) := by
    have := poke_append name ('=' :: x) 0 NUL (by simp)
    simpa using this
  -- the array `env_value` after `strncpy`
  have hV : ∃ t, strncpy (alloc (fun i => junk (i + 256)) 256) rest 256 = some (rest ++ NUL :: t) := by
    refine ⟨List.replicate (255 - rest.length) NUL ++ (alloc (fun i => junk (i + 256)) 256).drop 256, ?_⟩
    have h5 : 256 - rest.length = (255 - rest.length) + 1 := by omega
    simp [strncpy, length_alloc, List.take_of_length_le (Nat.le_of_lt h2), h5,
      List.replicate_succ]
  obtain ⟨t, ht⟩ := hV
  unfold env_line
  rw [if_pos hpos, strstr_eq_first name rest hname]
  simp only [Option.bind_eq_bind, hx, Option.some_bind, hpk, hdrop, ht,
    c_str_append_nul name x hn, ends_with_append_nul rest t LF hr]
  unfold strip_line_break
  by_cases h1 : rest.getLast? = some LF
  · obtain ⟨u, rfl⟩ := List.getLast?_eq_some_iff.mp h1
    have hu : NUL ∉ u := fun hm => hr (List.mem_append_left _ hm)
    have hul : u.length < 256 := by simp at h2; omega
    simp only [h1, decide_True, if_true, chop_append_nul u t LF hul hr, Option.some_bind,
      ends_with_append_nul u (NUL :: t) CR hu, List.dropLast_concat]
    by_cases h3 : u.getLast? = some CR
    · obtain ⟨w, rfl⟩ := List.getLast?_eq_some_iff.mp h3
      have hw : NUL ∉ w := fun hm => hu (List.mem_append_left _ hm)
      have hwl : w.length < 256 := by simp at hul; omega
      simp only [h3, decide_True, if_true, chop_append_nul w (NUL :: t) CR hwl hu,
        List.dropLast_concat, Option.some_bind, c_str_append_nul w (NUL :: NUL :: t) hw]
    · simp only [h3, decide_False, if_false, Option.some_bind,
        c_str_append_nul u (NUL :: t) hu]
      simp
  · simp only [h1, decide_False, if_false, c_str_append_nul rest t hr, Option.some_bind]
    simp

theorem exists_first_eq (line : List Char) (h : '=' ∈ line) :
    ∃ name rest, line = name ++ '=' :: rest ∧ '=' ∉ name := by
  induction line with
  | nil => simp at h
  | cons x xs ih =>
    by_cases hx : x = '='
    · exact ⟨[], xs, by simp [hx], by simp⟩
    · have hxs : '=' ∈ xs := by
        rcases List.mem_cons.mp h with h1 | h1
        · exact absurd h1.symm hx
        · exact h1
      obtain ⟨name, rest, e, hn⟩ := ih hxs
      refine ⟨x :: name, rest, by simp [e], ?_⟩
      intro hm
      rcases List.mem_cons.mp hm with h1 | h1
      · exact hx h1.symm
      · exact hn h1

theorem env_lines_skip (junk : Nat → Char) (l : List Char) (ls : List (List Char)) (env : Env)
    (h : '=' ∉ l) : env_lines junk (l :: ls) env = env_lines junk ls env := by
  simp [env_lines, env_line_no_eq junk l h]

theorem env_lines_set (junk : Nat → Char) (name rest : List Char) (ls : List (List Char))
    (env : Env) (hname : '=' ∉ name) (hnul : NUL ∉ name ++ '=' :: rest)
    (hfit : (name ++ '=' :: rest).length ≤ 256) :
    env_lines junk ((name ++ '=' :: rest) :: ls) env =
      env_lines junk ls (setenv env name (strip_line_break rest)) := by
  have hn : NUL ∉ name := fun hm => hnul (List.mem_append_left _ hm)
  have hr : NUL ∉ rest :=
    fun hm => hnul (List.mem_append_right _ (List.mem_cons_of_mem _ hm))
  have h1 : name.length < 256 := by simp at hfit; omega
  have h2 : rest.length < 256 := by simp at hfit; omega
  simp [env_lines, env_line_eq junk name rest hname hn hr h1 h2]

theorem setenv_other (env : Env) (name value k : List Char) (h : k ≠ name) :
    setenv env name value k = env k := by
  unfold setenv
  split
  · rfl
  · simp [h]

theorem setenv_empty (env : Env) (name value : List Char) : setenv env name value [] = env [] := by
  unfold setenv
  split
  · rfl
  · rename_i h
    have : ¬ ([] : List Char) = name := fun e => h (Or.inl e.symm)
    simp [this]

theorem setenv_same (env : Env) (name value : List Char) (h1 : name ≠ []) (h2 : '=' ∉ name) :
    setenv env name value name = some value := by
  simp [setenv, h1, h2]

/-- The loop never leaves the arrays on lines of at most 256 characters, and
it leaves alone every variable that no line names. -/
theorem env_lines_untouched (junk : Nat → Char) (lines : List (List Char))
    (hfit : ∀ l ∈ lines, l.length ≤ 256) (hnul : ∀ l ∈ lines, NUL ∉ l) (env : Env) :
    ∃ env2, env_lines junk lines env = some env2 ∧
      ∀ k, (k = [] ∨ ∀ l ∈ lines, ∀ r, l ≠ k ++ '=' :: r) → env2 k = env k := by
  induction lines generalizing env with
  | nil => exact ⟨env, rfl, fun _ _ => rfl⟩
  | cons l ls ih =>
    have hfit2 : ∀ l ∈ ls, l.length ≤ 256 := fun x hx => hfit x (List.mem_cons_of_mem _ hx)
    have hnul2 : ∀ l ∈ ls, NUL ∉ l := fun x hx => hnul x (List.mem_cons_of_mem _ hx)
    by_cases heq : '=' ∈ l
    · obtain ⟨name, rest, e, hname⟩ := exists_first_eq l heq
      subst e
      obtain ⟨env2, h2, hk⟩ := ih hfit2 hnul2 (setenv env name (strip_line_break rest))
      refine ⟨env2, ?_, ?_⟩
      · rw [env_lines_set junk name rest ls env hname (hnul _ (List.mem_cons_self _ _))
          (hfit _ (List.mem_cons_self _ _))]
        exact h2
      · intro k hcase
        rcases hcase with rfl | hno
        · rw [hk [] (Or.inl rfl), setenv_empty]
        · rw [hk k (Or.inr (fun x hx => hno x (List.mem_cons_of_mem _ hx)))]
          apply setenv_other
          intro e
          exact hno _ (List.mem_cons_self _ _) rest (by rw [e])
    · obtain ⟨env2, h2, hk⟩ := ih hfit2 hnul2 env
      refine ⟨env2, ?_, ?_⟩
      · rw [env_lines_skip junk l ls env heq]
        exact h2
      · intro k hcase
        apply hk
        rcases hcase with rfl | hno
        · exact Or.inl rfl
        · exact Or.inr (fun x hx => hno x (List.mem_cons_of_mem _ hx))

theorem env_lines_last (junk : Nat → Char) (pre post : List (List Char)) (k rest : List Char)
    (hfit : ∀ l ∈ pre ++ (k ++ '=' :: rest) :: post, l.length ≤ 256)
    (hnul : ∀ l ∈ pre ++ (k ++ '=' :: rest) :: post, NUL ∉ l)
    (hk : '=' ∉ k) (hne : k ≠ [])
    (hlast : ∀ l ∈ post, ∀ r, l ≠ k ++ '=' :: r) (env : Env) :
    ∃ env2, env_lines junk (pre ++ (k ++ '=' :: rest) :: post) env = some env2 ∧
      env2 k = some (strip_line_break rest) := by
  induction pre generalizing env with
  | nil =>
    have hfit2 : ∀ l ∈ post, l.length ≤ 256 := fun x hx => hfit x (by simp [hx])
    have hnul2 : ∀ l ∈ post, NUL ∉ l := fun x hx => hnul x (by simp [hx])
    obtain ⟨env2, h2, hkeep⟩ :=
      env_lines_untouched junk post hfit2 hnul2 (setenv env k (strip_line_break rest))
    refine ⟨env2, ?_, ?_⟩
    · rw [List.nil_append, env_lines_set junk k rest post env hk (hnul _ (by simp))
        (hfit _ (by simp))]
      exact h2
    · rw [hkeep k (Or.inr hlast), setenv_same _ _ _ hne hk]
  | cons p ps ih =>
    have hfit2 : ∀ l ∈ ps ++ (k ++ '=' :: rest) :: post, l.length ≤ 256 :=
      fun x hx => hfit x (List.mem_cons_of_mem _ hx)
    have hnul2 : ∀ l ∈ ps ++ (k ++ '=' :: rest) :: post, NUL ∉ l :=
      fun x hx => hnul x (List.mem_cons_of_mem _ hx)
    by_cases heq : '=' ∈ p
    · obtain ⟨name, r, e, hname⟩ := exists_first_eq p heq
      subst e
      obtain ⟨env2, h2, hv⟩ := ih hfit2 hnul2 (setenv env name (strip_line_break r))
      refine ⟨env2, ?_, hv⟩
      rw [List.cons_append, env_lines_set junk name r _ env hname
        (hnul _ (List.mem_cons_self _ _)) (hfit _ (List.mem_cons_self _ _))]
      exact h2
    · obtain ⟨env2, h2, hv⟩ := ih hfit2 hnul2 env
      refine ⟨env2, ?_, hv⟩
      rw [List.cons_append, env_lines_skip junk p _ env heq]
      exact h2

theorem env_lines_filter (junk : Nat → Char) (lines : List (List Char)) (env : Env)
    (hfit : ∀ l ∈ lines, l.length ≤ 256) (hnul : ∀ l ∈ lines, NUL ∉ l) :
    env_lines junk (lines.filter (fun l => decide ('=' ∈ l))) env = env_lines junk lines env := by
  induction lines generalizing env with
  | nil => rfl
  | cons l ls ih =>
    have hfit2 : ∀ l ∈ ls, l.length ≤ 256 := fun x hx => hfit x (List.mem_cons_of_mem _ hx)
    have hnul2 : ∀ l ∈ ls, NUL ∉ l := fun x hx => hnul x (List.mem_cons_of_mem _ hx)
    by_cases heq : '=' ∈ l
    · obtain ⟨name, rest, e, hname⟩ := exists_first_eq l heq
      rw [List.filter_cons_of_pos (by simpa using heq)]
      subst e
      rw [env_lines_set junk name rest _ env hname (hnul _ (List.mem_cons_self _ _))
          (hfit _ (List.mem_cons_self _ _)),
        env_lines_set junk name rest _ env hname (hnul _ (List.mem_cons_self _ _))
          (hfit _ (List.mem_cons_self _ _))]
      exact ih _ hfit2 hnul2
    · rw [List.filter_cons_of_neg (by simpa using heq), env_lines_skip junk l ls env heq]
      exact ih _ hfit2 hnul2

/-! ## Claims on the config file -/

/-- C5 as stated fails at the line "A=2" followed by a carriage return and no
line feed (a last line of a file without final newline): the claimed value is
"2", but the code keeps the carriage return. -/
theorem env_line_counterexample :
    ¬ (∀ (junk : Nat → Char) (name rest : List Char), '=' ∉ name → NUL ∉ name → NUL ∉ rest →
        env_line junk (name ++ '=' :: rest) = some (some (name, spec_env_value rest))) := by
  intro hall
  have h := hall sample_junk ['A'] ['2', CR] (by decide) (by decide) (by decide)
  have hcode : env_line sample_junk (['A'] ++ '=' :: ['2', CR]) = some (some (['A'], ['2', CR])) := by
    decide
  rw [hcode] at h
  revert h
  decide

/-- C5, amended.  For a line `name=rest` (`name` without `=`) whose name and
whose text after the first `=` each have fewer than 256 characters, the pair
handed to `setenv` has the name `name` and as value: `rest` without its final
carriage return and line feed when it ends in both; `rest` without its final
line feed when it ends in a line feed only; and `rest` itself when it does not
end in a line feed (a final carriage return then stays). -/
theorem env_line_pair (junk : Nat → Char) (name rest : List Char) (hname : '=' ∉ name)
    (hn : NUL ∉ name) (hr : NUL ∉ rest) (h1 : name.length < 256) (h2 : rest.length < 256) :
    (∀ v, rest = v ++ [CR, LF] →
      env_line junk (name ++ '=' :: rest) = some (some (name, v))) ∧
    (∀ v, rest = v ++ [LF] → v.getLast? ≠ some CR →
      env_line junk (name ++ '=' :: rest) = some (some (name, v))) ∧
    (rest.getLast? ≠ some LF →
      env_line junk (name ++ '=' :: rest) = some (some (name, rest))) := by
  have hcl := env_line_eq junk name rest hname hn hr h1 h2
  refine ⟨?_, ?_, ?_⟩
  · intro v hv
    rw [hcl]
    have e1 : v ++ [CR, LF] = (v ++ [CR]) ++ [LF] := by simp
    have : strip_line_break rest = v := by
      rw [hv, e1]
      simp [strip_line_break, List.getLast?_concat, List.dropLast_concat]
    rw [this]
  · intro v hv hcr
    rw [hcl]
    have : strip_line_break rest = v := by
      rw [hv]
      simp [strip_line_break, List.getLast?_concat, List.dropLast_concat, hcr]
    rw [this]
  · intro hlf
    rw [hcl]
    have : strip_line_break rest = rest := by
      simp [strip_line_break, hlf]
    rw [this]

/-- C5, amended, at the lines "A=2" with a line feed and "A=2" with carriage
return and line feed: both hand ("A", "2") to `setenv`. -/
theorem env_line_pair_witness :
    env_line sample_junk ("A=2".toList ++ [LF]) = some (some (['A'], ['2'])) ∧
    env_line sample_junk ("A=2".toList ++ [CR, LF]) = some (some (['A'], ['2'])) :=
  ⟨(env_line_pair sample_junk ['A'] ['2', LF] (by decide) (by decide) (by decide) (by decide)
      (by decide)).2.1 ['2'] rfl (by decide),
   (env_line_pair sample_junk ['A'] ['2', CR, LF] (by decide) (by decide) (by decide)
      (by decide) (by decide)).1 ['2'] rfl⟩

/-- A value of 256 characters fills `env_value` without a terminator, and the
`strlen` that follows runs off the array. -/
theorem env_line_long_value : env_line sample_junk ("A=".toList ++ List.replicate 256 'x') = none := by
  decide

/-- C6 as stated fails at the one-line file "=x": the line contains `=` and
names the empty key, `setenv` refuses an empty name, and the empty key holds
nothing afterwards. -/
theorem env_lines_counterexample :
    ¬ (∀ (junk : Nat → Char) (lines : List (List Char)) (env : Env),
        ∃ env2, env_lines junk lines env = some env2 ∧
          ∀ pre post k rest, lines = pre ++ (k ++ '=' :: rest) :: post → '=' ∉ k →
            (∀ l ∈ post, ∀ r, l ≠ k ++ '=' :: r) → env2 k = some (spec_env_value rest)) := by
  intro hall
  obtain ⟨env2, h2, hk⟩ := hall sample_junk [['=', 'x']] (fun _ => none)
  have hv := hk [] [] [] ['x'] rfl (by simp) (by simp)
  have hcode : env_lines sample_junk [['=', 'x']] (fun _ => none) = some (fun _ => none) := by
    have := env_lines_set sample_junk [] ['x'] [] (fun _ => none) (by simp) (by decide)
      (by decide)
    rw [List.nil_append] at this
    rw [this]
    simp [env_lines, setenv]
  rw [hcode] at h2
  rw [← Option.some.inj h2] at hv
  exact absurd hv (by simp)

/-- C6, amended.  For every sequence of lines of at most 256 characters each,
the load completes and is last-write-wins: each non-empty key named by a line
`key=rest` holds the value of the last such line; a variable that no line
names, and the empty key, keep their previous value; and removing the lines
without `=` changes nothing. -/
theorem env_lines_last_write_wins (junk : Nat → Char) (lines : List (List Char)) (env : Env)
    (hfit : ∀ l ∈ lines, l.length ≤ 256) (hnul : ∀ l ∈ lines, NUL ∉ l) :
    ∃ env2, env_lines junk lines env = some env2 ∧
      (∀ pre post k rest, lines = pre ++ (k ++ '=' :: rest) :: post → '=' ∉ k → k ≠ [] →
        (∀ l ∈ post, ∀ r, l ≠ k ++ '=' :: r) → env2 k = some (strip_line_break rest)) ∧
      (∀ k, (k = [] ∨ ∀ l ∈ lines, ∀ r, l ≠ k ++ '=' :: r) → env2 k = env k) ∧
      env_lines junk (lines.filter (fun l => decide ('=' ∈ l))) env = some env2 := by
  obtain ⟨env2, h2, hkeep⟩ := env_lines_untouched junk lines hfit hnul env
  refine ⟨env2, h2, ?_, hkeep, ?_⟩
  · intro pre post k rest e hk hne hlast
    subst e
    obtain ⟨env3, h3, hv⟩ := env_lines_last junk pre post k rest hfit hnul hk hne hlast env
    rw [h2] at h3
    rw [Option.some.inj h3]
    exact hv
  · rw [env_lines_filter junk lines env hfit hnul]
    exact h2

/-- C6, amended, at the file "A=1", line feed, "A=2", line feed, loaded into
an empty environment: `A` ends up as "2". -/
theorem env_lines_last_write_wins_witness :
    ∃ env2, load_env_vars sample_junk (some ("A=1".toList ++ [LF] ++ "A=2".toList ++ [LF]))
        (fun _ => none) = some env2 ∧ env2 ['A'] = some ['2'] := by
  obtain ⟨env2, h2, hlast, _, _⟩ := env_lines_last_write_wins sample_junk
    ["A=1".toList ++ [LF], "A=2".toList ++ [LF]] (fun _ => none) (by decide) (by decide)
  refine ⟨env2, ?_, ?_⟩
  · have hl : getlines ("A=1".toList ++ [LF] ++ "A=2".toList ++ [LF]) =
        ["A=1".toList ++ [LF], "A=2".toList ++ [LF]] := by decide
    simp only [load_env_vars, hl]
    exact h2
  · have := hlast ["A=1".toList ++ [LF]] [] ['A'] ['2', LF] rfl (by decide) (by decide)
      (by simp)
    rw [this]
    decide

/-! ## The directory scan -/

theorem c_str_of_mem (b : List Char) (h : NUL ∈ b) : c_str b = some (cstr b) := by
  simp [c_str, h]

theorem strncpy_then_terminate_mem (out src : List Char) (n : Nat) (hn : n < out.length) :
    ∃ b, (strncpy out src n).bind (fun o => poke o n NUL) = some b ∧
      b.length = out.length ∧ NUL ∈ b := by
  have hA : (src.take n ++ List.replicate (n - src.length) NUL).length = n := by
    simp only [List.length_append, List.length_take, List.length_replicate]
    omega
  have hcpy : strncpy out src n =
      some ((src.take n ++ List.replicate (n - src.length) NUL) ++ out.drop n) := by
    simp [strncpy, Nat.le_of_lt hn]
  have hpk := poke_append (src.take n ++ List.replicate (n - src.length) NUL) (out.drop n) 0 NUL
    (by simp only [List.length_drop]; omega)
  rw [hA, Nat.add_zero] at hpk
  refine ⟨_, by rw [hcpy, Option.some_bind, hpk], ?_, ?_⟩
  · simp only [List.length_append, List.length_set, List.length_drop, hA]
    omega
  · rw [List.drop_eq_getElem_cons hn, List.set_cons_zero]
    simp

theorem get_exe_name_core_total (start out : List Char) (hout : out.length = 128) :
    ∃ b, (if start.length > 6 then
          (strncpy out start (if start.length - 6 ≥ 128 then 127 else start.length - 6)).bind
            (fun o => poke o (if start.length - 6 ≥ 128 then 127 else start.length - 6) NUL)
        else (strncpy out start 127).bind (fun o => poke o 127 NUL)) = some b ∧ NUL ∈ b := by
  split
  · split
    · obtain ⟨b, hb, _, hm⟩ := strncpy_then_terminate_mem out start 127 (by omega)
      exact ⟨b, hb, hm⟩
    · obtain ⟨b, hb, _, hm⟩ := strncpy_then_terminate_mem out start (start.length - 6) (by omega)
      exact ⟨b, hb, hm⟩
  · obtain ⟨b, hb, _, hm⟩ := strncpy_then_terminate_mem out start 127 (by omega)
    exact ⟨b, hb, hm⟩

theorem get_exe_name_total (f out : List Char) (hout : out.length = 128) :
    ∃ b, get_exe_name f out 128 = some b ∧ NUL ∈ b := by
  have h1 : size_sub 128 1 = 127 := by decide
  unfold get_exe_name
  dsimp only
  simp only [h1, Option.bind_eq_bind]
  by_cases hlen : f.length < 7
  · rw [if_pos hlen]
    obtain ⟨b, hb, _, hm⟩ := strncpy_then_terminate_mem out f 127 (by omega)
    exact ⟨b, hb, hm⟩
  · rw [if_neg hlen]
    exact get_exe_name_core_total _ out hout

theorem snprintf_total (dst text : List Char) (size : Nat) (h0 : 0 < size)
    (hsize : size ≤ dst.length) :
    ∃ b, snprintf dst size text = some b ∧ NUL ∈ b ∧
      (NUL ∉ text → c_str b = some (text.take (size - 1))) := by
  have hk : min text.length (size - 1) < dst.length := by
    have := Nat.min_le_right text.length (size - 1)
    omega
  refine ⟨text.take (min text.length (size - 1)) ++
    NUL :: dst.drop (min text.length (size - 1) + 1), ?_, by simp, ?_⟩
  · simp [snprintf, Nat.pos_iff_ne_zero.mp h0, hk]
  · intro hn
    have ht : text.take (min text.length (size - 1)) = text.take (size - 1) := by
      rcases Nat.le_total text.length (size - 1) with h | h
      · rw [Nat.min_eq_left h, List.take_of_length_le h, List.take_of_length_le (Nat.le_refl _)]
      · rw [Nat.min_eq_right h]
    rw [ht]
    exact c_str_append_nul _ _ (fun hm => hn (List.mem_of_mem_take hm))

theorem entry_paths_total (junk : Nat → Char) (nld bin name : List Char) :
    ∃ t, entry_paths junk nld bin name = some t := by
  obtain ⟨e, he, hem⟩ := get_exe_name_total name (alloc junk 128) (length_alloc _ _)
  obtain ⟨s, hs, hsm, _⟩ := snprintf_total (alloc (fun i => junk (i + 128)) 512)
    (nld ++ '/' :: name) 512 (by omega) (by rw [length_alloc])
  obtain ⟨d, hd, hdm, _⟩ := snprintf_total (alloc (fun i => junk (i + 640)) 512)
    (bin ++ '/' :: cstr e) 512 (by omega) (by rw [length_alloc])
  refine ⟨(cstr e, cstr s, cstr d), ?_⟩
  simp [entry_paths, he, c_str_of_mem e hem, hs, hd, c_str_of_mem s hsm, c_str_of_mem d hdm]

theorem extends_fs_refl (fs : FS) : extends_fs fs fs := fun _ _ => rfl

theorem extends_fs_trans (a b c : FS) (h1 : extends_fs a b) (h2 : extends_fs b c) :
    extends_fs a c := by
  intro p hp
  have hb : b p = a p := h1 p hp
  rw [h2 p (by rw [hb]; exact hp), hb]

/-- One loop iteration, once the entry passed the filter and its paths are known. -/
theorem scan_entry_eq (junk : Nat → Char) (allowed : List Char → List Char → Bool)
    (nld bin : List Char) (st : Scan) (name exe src dst : List Char)
    (h7 : ¬ name.length < 7) (hsuf : ¬ strcmp (name.drop (name.length - 6)) BIN_SO ≠ 0)
    (hp : entry_paths junk nld bin name = some (exe, src, dst)) :
    scan_entry junk allowed nld bin st name =
      some (if (st.fs dst).isSome = true then
          ⟨st.fs, if strcmp exe PYTHON = 0 then some dst else st.interpreter, st.created⟩
        else if allowed src dst = true then
          ⟨fun p => if p = dst then some (Node.symlink src) else st.fs p,
            if strcmp exe PYTHON = 0 then some dst else st.interpreter,
            st.created ++ [(src, dst)]⟩
        else ⟨st.fs, if strcmp exe PYTHON = 0 then some dst else st.interpreter, st.created⟩) := by
  unfold scan_entry
  dsimp only
  rw [if_neg h7, if_neg hsuf, hp]
  simp only [Option.bind_eq_bind, Option.some_bind]
  by_cases hpy : strcmp exe PYTHON = 0
  · simp only [hpy, if_true]
    by_cases he : (st.fs dst).isSome = true
    · simp [he]
    · by_cases ha : allowed src dst = true <;> simp [he, ha]
  · simp only [hpy, if_false]
    by_cases he : (st.fs dst).isSome = true
    · simp [he]
    · by_cases ha : allowed src dst = true <;> simp [he, ha]

theorem scan_entry_facts (junk : Nat → Char) (allowed : List Char → List Char → Bool)
    (nld bin : List Char) (st : Scan) (name : List Char) :
    ∃ st2, scan_entry junk allowed nld bin st name = some st2 ∧
      extends_fs st.fs st2.fs ∧ settled junk allowed nld bin st2.fs name ∧
      (settled junk allowed nld bin st.fs name → st2.fs = st.fs ∧ st2.created = st.created) := by
  by_cases h7 : name.length < 7
  · refine ⟨st, ?_, extends_fs_refl _, Or.inl h7, fun _ => ⟨rfl, rfl⟩⟩
    unfold scan_entry
    dsimp only
    rw [if_pos h7]
  · by_cases hsuf : strcmp (name.drop (name.length - 6)) BIN_SO ≠ 0
    · refine ⟨st, ?_, extends_fs_refl _, Or.inr (Or.inl hsuf), fun _ => ⟨rfl, rfl⟩⟩
      unfold scan_entry
      dsimp only
      rw [if_neg h7, if_pos hsuf]
    · obtain ⟨⟨exe, src, dst⟩, hp⟩ := entry_paths_total junk nld bin name
      have heq := scan_entry_eq junk allowed nld bin st name exe src dst h7 hsuf hp
      by_cases he : (st.fs dst).isSome = true
      · rw [if_pos he] at heq
        exact ⟨_, heq, extends_fs_refl _, Or.inr (Or.inr ⟨exe, src, dst, hp, Or.inl he⟩),
          fun _ => ⟨rfl, rfl⟩⟩
      · by_cases ha : allowed src dst = true
        · rw [if_neg he, if_pos ha] at heq
          refine ⟨_, heq, ?_, Or.inr (Or.inr ⟨exe, src, dst, hp, Or.inl (by simp)⟩), ?_⟩
          · intro p hpp
            have hne : p ≠ dst := fun e => he (e ▸ hpp)
            simp [hne]
          · intro hset
            rcases hset with h | h | ⟨exe2, src2, dst2, hp2, hor⟩
            · exact absurd h h7
            · exact absurd h hsuf
            · rw [hp] at hp2
              have e := Option.some.inj hp2
              simp only [Prod.mk.injEq] at e
              obtain ⟨_, rfl, rfl⟩ := e
              rcases hor with h | h
              · exact absurd h he
              · rw [h] at ha
                exact absurd ha (by simp)
        · rw [if_neg he, if_neg ha] at heq
          exact ⟨_, heq, extends_fs_refl _,
            Or.inr (Or.inr ⟨exe, src, dst, hp, Or.inr (by simpa using ha)⟩),
            fun _ => ⟨rfl, rfl⟩⟩

theorem settled_of_extends (junk : Nat → Char) (allowed : List Char → List Char → Bool)
    (nld bin : List Char) (fs fs2 : FS) (name : List Char) (hext : extends_fs fs fs2)
    (h : settled junk allowed nld bin fs name) : settled junk allowed nld bin fs2 name := by
  rcases h with h | h | ⟨exe, src, dst, hp, hor⟩
  · exact Or.inl h
  · exact Or.inr (Or.inl h)
  · refine Or.inr (Or.inr ⟨exe, src, dst, hp, ?_⟩)
    rcases hor with h | h
    · exact Or.inl (by rw [hext dst h]; exact h)
    · exact Or.inr h

theorem scan_facts (junk : Nat → Char) (allowed : List Char → List Char → Bool)
    (nld bin : List Char) (entries : List (List Char)) (st : Scan) :
    ∃ st2, scan junk allowed nld bin entries st = some st2 ∧
      extends_fs st.fs st2.fs ∧ (∀ name ∈ entries, settled junk allowed nld bin st2.fs name) := by
  induction entries generalizing st with
  | nil => exact ⟨st, rfl, extends_fs_refl _, fun _ h => absurd h (List.not_mem_nil _)⟩
  | cons name rest ih =>
    obtain ⟨st1, h1, hext1, hset1, _⟩ := scan_entry_facts junk allowed nld bin st name
    obtain ⟨st2, h2, hext2, hset2⟩ := ih st1
    refine ⟨st2, ?_, extends_fs_trans _ _ _ hext1 hext2, ?_⟩
    · simp [scan, h1, h2]
    · intro n hn
      rcases List.mem_cons.mp hn with rfl | hn
      · exact settled_of_extends junk allowed nld bin _ _ _ hext2 hset1
      · exact hset2 n hn

theorem scan_quiet (junk : Nat → Char) (allowed : List Char → List Char → Bool)
    (nld bin : List Char) (entries : List (List Char)) (st : Scan)
    (hset : ∀ name ∈ entries, settled junk allowed nld bin st.fs name) :
    ∃ st2, scan junk allowed nld bin entries st = some st2 ∧
      st2.fs = st.fs ∧ st2.created = st.created := by
  induction entries generalizing st with
  | nil => exact ⟨st, rfl, rfl, rfl⟩
  | cons name rest ih =>
    obtain ⟨st1, h1, _, _, hq⟩ := scan_entry_facts junk allowed nld bin st name
    obtain ⟨hfs, hcr⟩ := hq (hset name (List.mem_cons_self _ _))
    obtain ⟨st2, h2, hfs2, hcr2⟩ := ih st1
      (fun n hn => by rw [hfs]; exact hset n (List.mem_cons_of_mem _ hn))
    refine ⟨st2, ?_, by rw [hfs2, hfs], by rw [hcr2, hcr]⟩
    simp [scan, h1, h2]

/-! ## Claim on the directory scan -/

/-- C8. For every directory listing, every initial file system and every
(fixed) answer of `symlink`: the scan completes; a second scan over the same
listing, started from the file system the first one left, leaves exactly that
file system and makes no successful `symlink` call; and every object that
existed before the first scan is still there, unchanged. -/
theorem scan_idempotent (junk : Nat → Char) (allowed : List Char → List Char → Bool)
    (nld bin : List Char) (entries : List (List Char)) (fs : FS) :
    ∃ s1, scan junk allowed nld bin entries ⟨fs, none, []⟩ = some s1 ∧
      (∃ s2, scan junk allowed nld bin entries ⟨s1.fs, none, []⟩ = some s2 ∧
        s2.fs = s1.fs ∧ s2.created = []) ∧
      (∀ p node, fs p = some node → s1.fs p = some node) := by
  obtain ⟨s1, h1, hext, hset⟩ := scan_facts junk allowed nld bin entries ⟨fs, none, []⟩
  refine ⟨s1, h1, ?_, ?_⟩
  · obtain ⟨s2, h2, hfs, hcr⟩ := scan_quiet junk allowed nld bin entries ⟨s1.fs, none, []⟩ hset
    exact ⟨s2, h2, hfs, hcr⟩
  · intro p node hp
    have := hext p (by simp [hp])
    rw [this]
    exact hp

/-! ## The search path -/

theorem setenv_path_ld (env : Env) (v : List Char) :
    setenv env LD_LIBRARY_PATH v PATH = env PATH := by
  apply setenv_other
  decide

theorem setenv_path_same (env : Env) (v : List Char) : setenv env PATH v PATH = some v :=
  setenv_same env PATH v (by decide) (by decide)

/-- Lines 181-189 in closed form. -/
theorem extend_path_eq (junk : Nat → Char) (env : Env) (bin : List Char)
    (hwf : Env.wf env) (hbin : NUL ∉ bin) :
    ∃ env2, extend_path junk env bin = some env2 ∧
      ((env PATH = none ∨ env PATH = some []) → env2 PATH = some (bin.take 1023)) ∧
      (∀ old, env PATH = some old → old ≠ [] →
        env2 PATH = some ((old ++ ':' :: bin).take 1023)) := by
  unfold extend_path
  cases hp : env PATH with
  | none =>
    obtain ⟨b, hb, _, hc⟩ := snprintf_total (alloc junk 1024) bin 1024 (by omega)
      (by rw [length_alloc])
    refine ⟨setenv env PATH (bin.take 1023), ?_, fun _ => setenv_path_same _ _, ?_⟩
    · simp [hb, hc hbin]
    · intro old ho
      exact absurd ho (by simp)
  | some old =>
    have hold : NUL ∉ old := hwf PATH old hp
    by_cases hl : old.length > 0
    · have hn : NUL ∉ old ++ ':' :: bin := by
        simp only [List.mem_append, List.mem_cons, not_or]
        exact ⟨hold, by decide, hbin⟩
      obtain ⟨b, hb, _, hc⟩ := snprintf_total (alloc junk 1024) (old ++ ':' :: bin) 1024
        (by omega) (by rw [length_alloc])
      refine ⟨setenv env PATH ((old ++ ':' :: bin).take 1023), ?_, ?_, ?_⟩
      · simp [hl, hb, hc hn]
      · intro hcase
        rcases hcase with h | h
        · exact absurd h (by simp)
        · have : old = [] := (Option.some.inj h)
          rw [this] at hl
          exact absurd hl (by simp)
      · intro old2 ho _
        rw [← Option.some.inj ho]
        exact setenv_path_same _ _
    · have he : old = [] := List.length_eq_zero.mp (by omega)
      obtain ⟨b, hb, _, hc⟩ := snprintf_total (alloc junk 1024) bin 1024 (by omega)
        (by rw [length_alloc])
      refine ⟨setenv env PATH (bin.take 1023), ?_, fun _ => setenv_path_same _ _, ?_⟩
      · simp [hl, hb, hc hbin]
      · intro old2 ho hne
        rw [← Option.some.inj ho] at hne
        exact absurd he hne

theorem setup_symlinks_path (junk : Nat → Char) (ld : Loader) (env : Env) (fs : FS)
    (r : Provisioned) (hwf : Env.wf env) (h : setup_symlinks junk ld env fs = some r)
    (hs : r.scanned = true) :
    ∃ app env2, env ANDROID_APP_PATH = some app ∧
      extend_path (fun i => junk (i + 2304)) env ((app ++ ['/', '.', 'b', 'i', 'n']).take 511)
        = some env2 ∧
      r.env PATH = env2 PATH := by
  unfold setup_symlinks at h
  cases hd : ld.dli_fname with
  | none =>
    rw [hd] at h
    simp only [Option.some.injEq] at h
    rw [← h] at hs
    exact absurd hs (by simp)
  | some fname =>
    rw [hd] at h
    simp only [Option.bind_eq_bind, Option.bind_eq_some] at h
    obtain ⟨_, _, _, _, _, _, dirbuf, _, h⟩ := h
    split at h
    · rw [← Option.some.inj h] at hs
      exact absurd hs (by simp)
    · simp only [Option.bind_eq_some] at h
      obtain ⟨nld, _, app, happ, bd, hbd, bin, hbin, h⟩ := h
      have happn : NUL ∉ app ++ ['/', '.', 'b', 'i', 'n'] := by
        simp only [List.mem_append, not_or]
        exact ⟨hwf _ _ happ, by decide⟩
      obtain ⟨b, hb, _, hc⟩ := snprintf_total (alloc (fun i => junk (i + 1024)) 512)
        (app ++ ['/', '.', 'b', 'i', 'n']) 512 (by omega) (by rw [length_alloc])
      rw [hbd] at hb
      rw [← Option.some.inj hb, hbin] at hc
      have hbineq : bin = (app ++ ['/', '.', 'b', 'i', 'n']).take 511 :=
        Option.some.inj (hc happn)
      split at h
      · rw [← Option.some.inj h] at hs
        exact absurd hs (by simp)
      · split at h
        · rw [← Option.some.inj h] at hs
          exact absurd hs (by simp)
        · simp only [Option.bind_eq_some] at h
          obtain ⟨st, _, env2, henv2, h⟩ := h
          refine ⟨app, env2, happ, by rw [← hbineq]; exact henv2, ?_⟩
          rw [← Option.some.inj h]
          exact setenv_path_ld env2 nld

theorem sample_env_wf (path : Option (List Char)) (h : ∀ p, path = some p → NUL ∉ p) :
    Env.wf (sample_env path) := by
  intro k v hk
  unfold sample_env at hk
  split at hk
  · rw [← Option.some.inj hk]
    decide
  · split at hk
    · exact h v hk
    · exact absurd hk (by simp)

/-! ## Claim on the search path -/

/-- C7, amended.  Whenever `setup_symlinks` completes its directory scan, with
`bin` the string in `bin_dir` (the first 511 characters of
`ANDROID_APP_PATH` followed by "/.bin"): the new `PATH` is exactly `bin` if
`PATH` was unset or empty; otherwise it is the first 1023 characters of the old
`PATH`, ":" and `bin`, which is all of it when that text has at most 1023
characters; and the old value is a prefix of the new one whenever the old value
has at most 1023 characters. -/
theorem path_after_setup_symlinks (junk : Nat → Char) (ld : Loader) (env : Env) (fs : FS)
    (r : Provisioned) (hwf : Env.wf env) (h : setup_symlinks junk ld env fs = some r)
    (hs : r.scanned = true) :
    ∃ app bin, env ANDROID_APP_PATH = some app ∧
      bin = (app ++ ['/', '.', 'b', 'i', 'n']).take 511 ∧
      ((env PATH = none ∨ env PATH = some []) → r.env PATH = some bin) ∧
      (∀ old, env PATH = some old → old ≠ [] →
        r.env PATH = some ((old ++ ':' :: bin).take 1023) ∧
        (old.length + 1 + bin.length ≤ 1023 → r.env PATH = some (old ++ ':' :: bin)) ∧
        (old.length ≤ 1023 → old <+: (old ++ ':' :: bin).take 1023)) := by
  obtain ⟨app, env2, happ, hext, hr⟩ := setup_symlinks_path junk ld env fs r hwf h hs
  have hbn : NUL ∉ (app ++ ['/', '.', 'b', 'i', 'n']).take 511 := by
    intro hm
    have hm2 := List.mem_of_mem_take hm
    simp only [List.mem_append] at hm2
    rcases hm2 with h1 | h1
    · exact hwf _ _ happ h1
    · revert h1
      decide
  obtain ⟨env3, h3, hunset, hset⟩ := extend_path_eq (fun i => junk (i + 2304)) env
    ((app ++ ['/', '.', 'b', 'i', 'n']).take 511) hwf hbn
  rw [hext] at h3
  have e32 : env2 = env3 := Option.some.inj h3
  subst e32
  have hbl : ((app ++ ['/', '.', 'b', 'i', 'n']).take 511).length ≤ 511 := by
    rw [List.length_take]
    exact Nat.min_le_left _ _
  refine ⟨app, _, happ, rfl, ?_, ?_⟩
  · intro hcase
    rw [hr, hunset hcase, List.take_of_length_le (by omega)]
  · intro old ho hne
    refine ⟨by rw [hr, hset old ho hne], ?_, ?_⟩
    · intro hfit
      rw [hr, hset old ho hne, List.take_of_length_le]
      simp only [List.length_append, List.length_cons]
      omega
    · intro hle
      rw [List.take_append_eq_append_take, List.take_of_length_le hle]
      exact List.prefix_append _ _

/-- C7, amended, from `PATH=/x` with `ANDROID_APP_PATH=/data/app`: the new
`PATH` is `/x:/data/app/.bin`. -/
theorem path_after_setup_symlinks_witness :
    ∃ r, setup_symlinks sample_junk (sample_loader []) (sample_env (some "/x".toList))
        (fun _ => none) = some r ∧
      r.env PATH = some "/x:/data/app/.bin".toList := by
  cases hq : setup_symlinks sample_junk (sample_loader []) (sample_env (some "/x".toList))
      (fun _ => none) with
  | none =>
    have hsome : (setup_symlinks sample_junk (sample_loader [])
        (sample_env (some "/x".toList)) (fun _ => none)).isSome = true := by decide
    rw [hq] at hsome
    exact absurd hsome (by simp)
  | some r =>
    have hsc : (setup_symlinks sample_junk (sample_loader [])
        (sample_env (some "/x".toList)) (fun _ => none)).map (fun r => r.scanned) = some true := by
      decide
    rw [hq] at hsc
    have hs : r.scanned = true := by simpa using hsc
    obtain ⟨app, bin, happ, hbin, _, hold⟩ := path_after_setup_symlinks sample_junk
      (sample_loader []) (sample_env (some "/x".toList)) (fun _ => none) r
      (sample_env_wf _ (fun p hp => by rw [← Option.some.inj hp]; decide)) hq hs
    have happ2 : app = "/data/app".toList := by
      have : sample_env (some "/x".toList) ANDROID_APP_PATH = some "/data/app".toList := by decide
      rw [this] at happ
      exact (Option.some.inj happ).symm
    have hp := (hold "/x".toList (by decide) (by decide)).1
    refine ⟨r, rfl, ?_⟩
    rw [hp, hbin, happ2]
    decide

/-- C7 as stated fails for a long `PATH`: from a `PATH` of 1100 letters the
new value has at most 1023 characters, so the old value is not a prefix of it
(and the bin directory is not in it). -/
theorem path_counterexample :
    ¬ (∀ (junk : Nat → Char) (ld : Loader) (env : Env) (fs : FS) (r : Provisioned)
        (old : List Char), Env.wf env → setup_symlinks junk ld env fs = some r →
        r.scanned = true → env PATH = some old →
        ∃ new, r.env PATH = some new ∧ old <+: new) := by
  intro hall
  have hwf : Env.wf (sample_env (some (List.replicate 1100 'a'))) :=
    sample_env_wf _ (fun p hp => by
      rw [← Option.some.inj hp]
      intro hm
      have := List.eq_of_mem_replicate hm
      revert this
      decide)
  have hpath : sample_env (some (List.replicate 1100 'a')) PATH = some (List.replicate 1100 'a') := by
    simp [sample_env, PATH, ANDROID_APP_PATH]
  cases hq : setup_symlinks sample_junk (sample_loader [])
      (sample_env (some (List.replicate 1100 'a'))) (fun _ => none) with
  | none =>
    have hsome : (setup_symlinks sample_junk (sample_loader [])
        (sample_env (some (List.replicate 1100 'a'))) (fun _ => none)).isSome = true := by decide
    rw [hq] at hsome
    exact absurd hsome (by simp)
  | some r =>
    have hsc : (setup_symlinks sample_junk (sample_loader [])
        (sample_env (some (List.replicate 1100 'a'))) (fun _ => none)).map
        (fun r => r.scanned) = some true := by decide
    rw [hq] at hsc
    have hs : r.scanned = true := by simpa using hsc
    obtain ⟨new, hnew, hpre⟩ := hall sample_junk (sample_loader []) _ _ r _ hwf hq hs hpath
    obtain ⟨app, env2, happ, hext, hr⟩ := setup_symlinks_path sample_junk (sample_loader []) _ _ r
      hwf hq hs
    have hbn : NUL ∉ (app ++ ['/', '.', 'b', 'i', 'n']).take 511 := by
      intro hm
      have hm2 := List.mem_of_mem_take hm
      simp only [List.mem_append] at hm2
      rcases hm2 with h1 | h1
      · exact hwf _ _ happ h1
      · revert h1
        decide
    obtain ⟨env3, h3, _, hset⟩ := extend_path_eq (fun i => sample_junk (i + 2304)) _
      ((app ++ ['/', '.', 'b', 'i', 'n']).take 511) hwf hbn
    rw [hext] at h3
    have e32 : env2 = env3 := Option.some.inj h3
    subst e32
    have hv := hset _ hpath (by simp)
    rw [hr, hv] at hnew
    have hlen : new.length ≤ 1023 := by
      rw [← Option.some.inj hnew, List.length_take]
      exact Nat.min_le_left _ _
    have hle := hpre.length_le
    simp only [List.length_replicate] at hle
    omega

/-- A first scan does create links: on an empty file system the entries
`libpythonbin.so` and `libmain.so` yield the one link `python`, which is also
the interpreter found. -/
theorem scan_sample :
    (scan sample_junk (fun _ _ => true) "/data/lib".toList "/data/app/.bin".toList
        ["libpythonbin.so".toList, "libmain.so".toList] ⟨fun _ => none, none, []⟩).map
      (fun s => (s.created, s.interpreter)) =
    some ([("/data/lib/libpythonbin.so".toList, "/data/app/.bin/python".toList)],
      some "/data/app/.bin/python".toList) := by
  decide

/-- On every build that uses `Py_InitializeFromConfig`, a reported exception
changes only the log: the bootstrap fragments are still run. -/
theorem main_init_after_exception (h : Host) (h3 : 3 ≤ h.py_major) (h11 : 11 ≤ h.py_minor)
    (hex : h.init_exception = true) :
    Event.logp "Python initialization failed:" ∈ main_init h ∧
    Event.run_simple_string Fragment.test_redirection ∈ main_init h ∧
    Event.run_simple_string Fragment.logfile ∈ main_init h := by
  have hm : h.py_major ≥ 3 ∧ h.py_minor ≥ P4A_MIN_VER := ⟨h3, h11⟩
  simp [main_init, hm, hex]

end Start
